import Mathlib

/-!
Verification development for the Dream11 fantasy-cricket backend.

The development shallowly embeds the four core modules of the repository:

- data_processor.py      (role resolution)
- fantasy_calculator.py  (ball-by-ball scoring engine)
- credits_calculator.py  (time-aware credit valuation)
- solver.py              (team selection by integer programming)

Python floats are modelled as exact rationals.  The sample standard
deviation inside the composite score involves a square root, so a
composite score is represented exactly as the pair (mean, sample
variance); the encoded real value is mean - 0.3 * sqrt(variance), and
comparisons between composite scores are decided by exact rational
arithmetic (proved correct against the real value below).
-/

set_option maxRecDepth 100000
set_option maxHeartbeats 1000000

/- The Batteries rational arithmetic definitions are marked irreducible,
which blocks the evaluation of concrete witnesses by the decide tactic;
restore the default reducibility for them (the kernel ignores
reducibility annotations, so proofs are unaffected). -/

set_option allowUnsafeReducibility true in
attribute [semireducible] Rat.add

set_option allowUnsafeReducibility true in
attribute [semireducible] Rat.mul

set_option allowUnsafeReducibility true in
attribute [semireducible] Rat.sub

set_option allowUnsafeReducibility true in
attribute [semireducible] Rat.inv

set_option allowUnsafeReducibility true in
attribute [semireducible] Rat.ofScientific

namespace Dream11

/-! ## Generic helpers -/

/-- Recursion kernel of uniqueFirst: keep the elements not seen yet, in
order, remembering the values already emitted. -/
def uniqueFirstAux {α : Type} [DecidableEq α] (seen : List α) : List α → List α
  | [] => []
  | a :: l => if a ∈ seen then uniqueFirstAux seen l else a :: uniqueFirstAux (a :: seen) l

/-- First-occurrence deduplication, the order produced by pandas unique. -/
def uniqueFirst {α : Type} [DecidableEq α] (l : List α) : List α :=
  uniqueFirstAux [] l

/-- Insertion into a sorted list, by a boolean order. -/
def insertSorted {α : Type} (le : α → α → Bool) (a : α) : List α → List α
  | [] => [a]
  | b :: l => if le a b then a :: b :: l else b :: insertSorted le a l

/-- Insertion sort, a stable sort as used by pandas for group keys and the
median. -/
def insertionSort {α : Type} (le : α → α → Bool) : List α → List α
  | [] => []
  | a :: l => insertSorted le a (insertionSort le l)

/-- Lexicographic comparison of char lists by code point. -/
def charListLe : List Char → List Char → Bool
  | [], _ => true
  | _ :: _, [] => false
  | a :: as, b :: bs =>
    if a.toNat < b.toNat then true
    else if b.toNat < a.toNat then false
    else charListLe as bs

/-- Lexicographic string order by code points (the pandas sort order for
the ascii player ids of the dataset). -/
def strLe (a b : String) : Bool := charListLe a.data b.data

/-- Arithmetic mean of a list of rationals (pandas Series.mean). -/
def listMean (l : List ℚ) : ℚ := l.sum / (l.length : ℚ)

/-- Sample variance with ddof = 1 (the square of pandas Series.std).  For a
single-sample series pandas std is NaN and the source maps it to 0; an
empty series never reaches this point with a nonzero result either.  -/
def sampleVar (l : List ℚ) : ℚ :=
  if l.length ≤ 1 then 0
  else ((l.map (fun x => (x - listMean l) ^ 2)).sum) / ((l.length : ℚ) - 1)

/-- Median of a list of rationals, as pandas Series.median: sort, take the
middle element for odd length, the mean of the two middle elements for
even length.  (The empty case is never reached by the source on the paths
we verify; pandas would give NaN there, modelled as 0.) -/
def listMedian (l : List ℚ) : ℚ :=
  let s := insertionSort (fun a b => decide (a ≤ b)) l
  let n := l.length
  if n = 0 then 0
  else if n % 2 = 1 then s.getD (n / 2) 0
  else (s.getD (n / 2 - 1) 0 + s.getD (n / 2) 0) / 2

/-- Round to the nearest integer with ties to even (numpy rounding, used by
pandas Series.round). -/
def roundHalfEven (y : ℚ) : ℤ :=
  if y - (⌊y⌋ : ℚ) = 1 / 2 then (if 2 ∣ ⌊y⌋ then ⌊y⌋ else ⌊y⌋ + 1) else round y

/-- pandas Series.round(2). -/
def roundTo2 (q : ℚ) : ℚ := (roundHalfEven (q * 100) : ℚ) / 100

/-- pandas Series.clip(lo, hi). -/
def clipQ (lo hi q : ℚ) : ℚ := max lo (min q hi)

/-! ## Exact composite scores

A composite score `0.7 * mu + 0.3 * (mu - std)` equals `mu - 0.3 * std`
where `std` is the square root of the sample variance.  The pair
`(mu, var)` represents this real number exactly. -/

/-- A composite score: the mean and the sample variance of the fantasy
point series.  The represented real value is `mu - 0.3 * sqrt var`. -/
structure Comp where
  mu : ℚ
  var : ℚ
deriving DecidableEq

/-- The real value represented by a composite score. -/
noncomputable def Comp.val (c : Comp) : ℝ :=
  (c.mu : ℝ) - (3 / 10) * Real.sqrt (c.var : ℝ)

/-- Decides `sqrt y < c + sqrt x` for rationals `x, y ≥ 0` by case analysis
on the sign of `c` and squaring. -/
def sqrtAddLt (y c x : ℚ) : Bool :=
  if c < 0 then
    decide (c ^ 2 < x) && (decide (0 < x + c ^ 2 - y) &&
      decide ((2 * c) ^ 2 * x < (x + c ^ 2 - y) ^ 2))
  else if c = 0 then decide (y < x)
  else
    decide (y - x - c ^ 2 < 0) || decide ((y - x - c ^ 2) ^ 2 < (2 * c) ^ 2 * x)

/-- Strict comparison of represented composite values:
`a.mu - 0.3*sqrt a.var < b.mu - 0.3*sqrt b.var`. -/
def compLt (a b : Comp) : Bool :=
  sqrtAddLt ((9 / 100) * b.var) (b.mu - a.mu) ((9 / 100) * a.var)

/-- Non-strict comparison of represented composite values. -/
def compLe (a b : Comp) : Bool := !(compLt b a)

/-! ## PlayerDataProcessor (data_processor.py) -/

/-- A match date.  The source carries dates as ISO `YYYY-MM-DD` strings and
compares them chronologically after parsing; the structured form carries
the parsed fields. -/
structure MDate where
  year : Int
  month : Int
  day : Int
deriving DecidableEq

/-- Chronological strict order on dates (the pandas Timestamp order). -/
def dateLt (a b : MDate) : Bool :=
  decide (a.year < b.year) ||
    (decide (a.year = b.year) && (decide (a.month < b.month) ||
      (decide (a.month = b.month) && decide (a.day < b.day))))

/-- The two reference tables of PlayerDataProcessor: seasonal roles keyed by
(player_id, season) and global roles keyed by player_id. -/
structure PlayerDataProcessor where
  seasonal_roles : List (String × Int × String)
  global_roles : List (String × String)
deriving DecidableEq

/-- PlayerDataProcessor.get_player_role: season-specific role first, then
the global role, then the default BAT.  The season is the year of the
match date. -/
def get_player_role (t : PlayerDataProcessor) (player_id : String) (match_date : MDate) : String :=
  -- the season is the year parsed from the match date
  match t.seasonal_roles.find? (fun r => r.1 == player_id && r.2.1 == match_date.year) with
  | some r => r.2.2
  | none =>
    match t.global_roles.find? (fun r => r.1 == player_id) with
    | some g => g.2
    | none => "BAT"

/-! ## FantasyPointsCalculator (fantasy_calculator.py) -/

/-- A wicket record on a delivery: its kind and, when present, the names of
the fielders involved. -/
structure Wicket where
  kind : String
  fielders : Option (List String)
deriving DecidableEq

/-- One delivery of the event stream.  `wides`/`noballs` are `some` exactly
when the corresponding key is present in the extras dictionary. -/
structure Delivery where
  batter : String
  bowler : String
  runs_batter : Nat
  runs_total : Nat
  wides : Option Nat
  noballs : Option Nat
  wickets : Option (List Wicket)
deriving DecidableEq

structure Over where
  deliveries : List Delivery
deriving DecidableEq

structure Innings where
  overs : List Over
deriving DecidableEq

/-- The `info` block of a match file: team squads (team name to player
names) and the id registry (player name to stable player id). -/
structure MatchInfo where
  players : List (String × List String)
  people : List (String × String)
deriving DecidableEq

structure MatchData where
  info : MatchInfo
  innings : List Innings
deriving DecidableEq

/-- Per-player category point accumulators (defaultdict semantics: every
player implicitly starts at zero). -/
structure PCat where
  batting : Int := 0
  bowling : Int := 0
  fielding : Int := 0
deriving DecidableEq

/-- Per-player running counters (defaultdict semantics). -/
structure Counters where
  runs_scored : Nat := 0
  balls_faced : Nat := 0
  wickets : Nat := 0
  runs_conceded : Nat := 0
  legal_balls_bowled : Nat := 0
  catches : Nat := 0
deriving DecidableEq

/-- Lookup in a name-to-id association list (dict .get). -/
def regGet (reg : List (String × String)) (name : String) : Option String :=
  (reg.find? (fun p => p.1 == name)).map (fun p => p.2)

/-- FantasyPointsCalculator._get_player_registry: map each listed squad
player to its id from info.registry.people, skipping names without one. -/
def _get_player_registry (m : MatchData) : List (String × String) :=
  m.info.players.flatMap (fun tp =>
    tp.2.filterMap (fun name =>
      match regGet m.info.people name with
      | some pid => some (name, pid)
      | none => none))

/-- Scoring-state shared by the whole pass: points, counters, and the
insertion-ordered key list of the player_stats defaultdict (the players
whose counters have been touched). -/
structure ScoreState where
  points : String → PCat
  stats : String → Counters
  statKeys : List String

/-- The state of the main loop of calculate_points; `lastDelivery` models
the Python loop variable `delivery`, which survives the inner loop and is
read by the maiden-over check. -/
structure LoopState where
  score : ScoreState
  lastDelivery : Option Delivery

/-- Pointwise update of a player points map. -/
def updPts (pts : String → PCat) (pid : String) (f : PCat → PCat) : String → PCat :=
  fun q => if q = pid then f (pts q) else pts q

/-- Pointwise update of a player counters map. -/
def updCnt (st : String → Counters) (pid : String) (f : Counters → Counters) : String → Counters :=
  fun q => if q = pid then f (st q) else st q

/-- Record a first touch of a defaultdict key. -/
def touch (ks : List String) (k : String) : List String :=
  if k ∈ ks then ks else ks ++ [k]

/-- A scoring band `(lower, upper, points)`; `hi = none` models an upper
bound of float inf. -/
structure Band where
  lo : ℚ
  hi : Option ℚ
  pts : Int
deriving DecidableEq

/-- Membership test `lo <= x <= hi` of SCORING_RULES band keys. -/
def bandMatches (b : Band) (x : ℚ) : Bool :=
  decide (b.lo ≤ x) && (match b.hi with | none => true | some h => decide (x ≤ h))

/-- SCORING_RULES strike_rate, in dictionary (insertion) order. -/
def srBands : List Band :=
  [⟨170, none, 6⟩, ⟨150, some 169.99, 4⟩, ⟨130, some 149.99, 2⟩,
   ⟨50, some 69.99, -2⟩, ⟨0, some 49.99, -4⟩]

/-- SCORING_RULES economy_rate, in dictionary (insertion) order. -/
def erBands : List Band :=
  [⟨0, some 5.0, 6⟩, ⟨5.01, some 6.5, 4⟩, ⟨6.51, some 8.0, 2⟩,
   ⟨10.0, some 11.0, -2⟩, ⟨11.01, none, -4⟩]

/-- Points of the first matching band, 0 when no band matches. -/
def firstBandPoints (bands : List Band) (x : ℚ) : Int :=
  match bands.find? (fun b => bandMatches b x) with
  | some b => b.pts
  | none => 0

/-- The strike rate of a player at the end of the match. -/
def strikeRateOf (c : Counters) : ℚ :=
  ((c.runs_scored : ℚ) / (c.balls_faced : ℚ)) * 100

/-- The strike-rate adjustment of _apply_end_of_match_bonuses: only when at
least 10 balls were faced, the points of the first matching band. -/
def strikeRateAdjustment (c : Counters) : Int :=
  if 10 ≤ c.balls_faced then firstBandPoints srBands (strikeRateOf c) else 0

/-- The economy rate of a bowler at the end of the match. -/
def economyRateOf (c : Counters) : ℚ :=
  (c.runs_conceded : ℚ) / ((c.legal_balls_bowled : ℚ) / 6)

/-- The economy-rate adjustment: only with at least 12 legal balls bowled. -/
def economyRateAdjustment (c : Counters) : Int :=
  if 12 ≤ c.legal_balls_bowled then firstBandPoints erBands (economyRateOf c) else 0

/-- Add batting points for one player. -/
def addBatPts (sc : ScoreState) (pid : String) (n : Int) : ScoreState :=
  { sc with points := updPts sc.points pid (fun p => { p with batting := p.batting + n }) }

/-- Add bowling points for one player. -/
def addBowlPts (sc : ScoreState) (pid : String) (n : Int) : ScoreState :=
  { sc with points := updPts sc.points pid (fun p => { p with bowling := p.bowling + n }) }

/-- Add fielding points for one player. -/
def addFieldPts (sc : ScoreState) (pid : String) (n : Int) : ScoreState :=
  { sc with points := updPts sc.points pid (fun p => { p with fielding := p.fielding + n }) }

/-- Update the counters of one player; every defaultdict access creates the
key, so the key list is touched as well. -/
def updStat (sc : ScoreState) (pid : String) (f : Counters → Counters) : ScoreState :=
  { sc with stats := updCnt sc.stats pid f, statKeys := touch sc.statKeys pid }

/-- The per-wicket bowling update of _process_delivery. -/
def wicketBowling (bowler_id : Option String) (sc : ScoreState) (w : Wicket) : ScoreState :=
  match bowler_id with
  | some bo =>
    if w.kind ≠ "run out" then
      let sc := addBowlPts sc bo 25
      let sc := updStat sc bo (fun c => { c with wickets := c.wickets + 1 })
      if w.kind = "bowled" ∨ w.kind = "lbw" then addBowlPts sc bo 8 else sc
    else sc
  | none => sc

/-- The per-fielder fielding update of _process_delivery. -/
def wicketFielding (reg : List (String × String)) (w : Wicket)
    (nfielders : Nat) (sc : ScoreState) (fname : String) : ScoreState :=
  match regGet reg fname with
  | some fid =>
    if w.kind = "run out" then
      if nfielders = 1 then addFieldPts sc fid 12 else addFieldPts sc fid 6
    else if w.kind = "stumped" then addFieldPts sc fid 12
    else
      let sc := addFieldPts sc fid 8
      updStat sc fid (fun c => { c with catches := c.catches + 1 })
  | none => sc

/-- FantasyPointsCalculator._process_delivery, acting on points, counters
and the touched-key list. -/
def _process_delivery (reg : List (String × String)) (sc : ScoreState)
    (d : Delivery) : ScoreState :=
  let batter_id := regGet reg d.batter
  let bowler_id := regGet reg d.bowler
  -- Batting points and batting stats
  let sc :=
    match batter_id with
    | some bid =>
      let sc := addBatPts sc bid ((d.runs_batter : Int) * 1)
      let sc := if d.runs_batter = 4 then addBatPts sc bid 1 else sc
      let sc := if d.runs_batter = 6 then addBatPts sc bid 2 else sc
      let sc := updStat sc bid (fun c => { c with runs_scored := c.runs_scored + d.runs_batter })
      if d.wides.isNone then
        updStat sc bid (fun c => { c with balls_faced := c.balls_faced + 1 })
      else sc
    | none => sc
  -- Bowling and fielding points on wicket events
  let sc :=
    match d.wickets with
    | some ws =>
      ws.foldl (fun sc w =>
        let sc := wicketBowling bowler_id sc w
        match w.fielders with
        | some fs => fs.foldl (wicketFielding reg w fs.length) sc
        | none => sc) sc
    | none => sc
  -- Bowling stat accounting
  match bowler_id with
  | some bo =>
    let conceded := d.runs_batter + d.wides.getD 0 + d.noballs.getD 0
    let sc := updStat sc bo (fun c => { c with runs_conceded := c.runs_conceded + conceded })
    if d.wides.isNone && d.noballs.isNone then
      updStat sc bo (fun c => { c with legal_balls_bowled := c.legal_balls_bowled + 1 })
    else sc
  | none => sc

/-- One step of the inner delivery loop: process the delivery and remember
it as the current value of the loop variable. -/
def deliveryStep (reg : List (String × String)) (ls : LoopState)
    (d : Delivery) : LoopState :=
  { score := _process_delivery reg ls.score d, lastDelivery := some d }

/-- One over of the main loop of calculate_points: process the deliveries,
then apply the maiden-over bonus when the over total is zero.  The bonus
reads the loop variable `delivery`; if no delivery has ever been processed
that read raises NameError, modelled as the error result. -/
def processOver (reg : List (String × String)) (ls : LoopState)
    (ov : Over) : Except Unit LoopState :=
  let ls1 := ov.deliveries.foldl (deliveryStep reg) ls
  let runs_in_over := (ov.deliveries.map (fun d => d.runs_total)).sum
  if runs_in_over = 0 then
    match ls1.lastDelivery with
    | none => Except.error ()
    | some d =>
      match regGet reg d.bowler with
      | some bowler_id => Except.ok { ls1 with score := addBowlPts ls1.score bowler_id 12 }
      | none => Except.ok ls1
  else Except.ok ls1

/-- End-of-match bonuses for one player, from that player's counters. -/
def endBonus (c : Counters) (p : PCat) : PCat :=
  let p := { p with batting := p.batting + strikeRateAdjustment c }
  let p := if c.runs_scored = 0 ∧ 0 < c.balls_faced then
      { p with batting := p.batting + (-2) } else p
  let p := if c.wickets = 3 then { p with bowling := p.bowling + 6 } else p
  let p := if c.wickets = 4 then { p with bowling := p.bowling + 10 } else p
  let p := if c.wickets = 5 then { p with bowling := p.bowling + 16 } else p
  let p := { p with bowling := p.bowling + economyRateAdjustment c }
  if 3 ≤ c.catches then { p with fielding := p.fielding + 4 } else p

/-- FantasyPointsCalculator._apply_end_of_match_bonuses: fold the per-player
bonuses over the players with counters. -/
def _apply_end_of_match_bonuses (sc : ScoreState) : String → PCat :=
  sc.statKeys.foldl (fun pts pid => updPts pts pid (endBonus (sc.stats pid))) sc.points

/-- The initial scoring state: all accumulators zero, no key touched. -/
def initState : LoopState :=
  { score := { points := fun _ => {}, stats := fun _ => {}, statKeys := [] },
    lastDelivery := none }

/-- FantasyPointsCalculator.calculate_points: replay every over of every
innings, then apply the end-of-match bonuses.  The result maps each player
id to its category points (players never touched stay at zero). -/
def calculate_points (m : MatchData) : Except Unit (String → PCat) :=
  let reg := _get_player_registry m
  (m.innings.foldlM (fun ls (inn : Innings) => inn.overs.foldlM (processOver reg) ls)
      initState).map (fun ls => _apply_end_of_match_bonuses ls.score)

/-- True exactly on the error result (the modelled NameError crash). -/
def isError {ε α : Type} (e : Except ε α) : Bool :=
  match e with
  | Except.error _ => true
  | Except.ok _ => false

/-- Reads the final bowling points of one player out of a scoring result. -/
def bowlingOf (r : Except Unit (String → PCat)) (pid : String) : Option Int :=
  (r.toOption).map (fun f => (f pid).bowling)

/-! ## CreditsCalculator (credits_calculator.py) -/

/-- One row of the historical ground-truth table. -/
structure HistRecord where
  player_id : String
  match_id : String
  match_date : MDate
  actual_fp : ℚ
deriving DecidableEq

/-- The CreditsCalculator state: the full historical dataset and the roles
processor. -/
structure CreditsCalculator where
  historical_df : List HistRecord
  roles_processor : PlayerDataProcessor
deriving DecidableEq

/-- CreditsCalculator._calculate_composite_score on the series of the last
up-to-10 fantasy points.  The source computes
`0.7 * mu + 0.3 * (mu - std)` = `mu - 0.3 * std` in floating point, with
std of a single sample defined as 0; the pair (mean, sample variance)
represents that value exactly (see Comp.val). -/
def _calculate_composite_score (fp_series : List ℚ) : Comp :=
  if fp_series.length < 1 then ⟨0, 0⟩
  else ⟨listMean fp_series, sampleVar fp_series⟩

/-- One row of the per-player stats table built in step 2 of
get_credits_for_match, with the role assigned in the following step. -/
structure StatRow where
  player_id : String
  appearances : Nat
  composite_score : Comp
  role : String
deriving DecidableEq

/-- The distinct player ids of the history, in sorted order (pandas groupby
sorts its keys). -/
def groupKeys (hist : List HistRecord) : List String :=
  insertionSort strLe (uniqueFirst (hist.map (fun r => r.player_id)))

/-- Steps 2 and 3a of get_credits_for_match: appearances, composite score
of the last up-to-10 appearances, and the role at the match date, for
every player appearing in the (already filtered) history. -/
def computeStats (pre : List HistRecord) (roles : PlayerDataProcessor)
    (match_date : MDate) : List StatRow :=
  (groupKeys pre).map (fun pid =>
    let group := pre.filter (fun r => r.player_id == pid)
    let last_10_fp := (group.map (fun r => r.actual_fp)).drop (group.length - 10)
    { player_id := pid, appearances := group.length,
      composite_score := _calculate_composite_score last_10_fp,
      role := get_player_role roles pid match_date })

/-- Step 3 of get_credits_for_match: the pool of experienced players, at
least 10 prior appearances. -/
def percentilePool (stats : List StatRow) : List StatRow :=
  stats.filter (fun r => decide (10 ≤ r.appearances))

/-- scipy.stats.percentileofscore with the default kind, rank:
`(left + right + (left < right)) * (50 / n)` where left and right count
the scores strictly below resp. weakly below the given score. -/
def percentileofscore (scores : List Comp) (x : Comp) : ℚ :=
  let n := scores.length
  let left := scores.countP (fun y => compLt y x)
  let right := scores.countP (fun y => compLe y x)
  ((left : ℚ) + (right : ℚ) + (if left < right then 1 else 0)) * (50 / (n : ℚ))

/-- One credit band: a credit range and a percentile range. -/
structure CreditBand where
  min_c : ℚ
  max_c : ℚ
  min_p : ℚ
  max_p : ℚ
deriving DecidableEq

/-- The four fixed credit bands, in dictionary (insertion) order. -/
def credit_bands : List CreditBand :=
  [⟨10.5, 11.0, 90, 100⟩, ⟨9.0, 10.0, 70, 90⟩, ⟨7.0, 8.5, 30, 70⟩, ⟨4.0, 6.5, 0, 30⟩]

/-- get_credit: linear interpolation inside the first band whose half-open
percentile range contains p; 11.0 when no band matches (the percentile 100
case). -/
def get_credit (p : ℚ) : ℚ :=
  match credit_bands.find? (fun b => decide (b.min_p ≤ p) && decide (p < b.max_p)) with
  | some b =>
    let pos_in_band := if 0 < b.max_p - b.min_p then (p - b.min_p) / (b.max_p - b.min_p) else 0
    b.min_c + pos_in_band * (b.max_c - b.min_c)
  | none => 11.0

/-- The experienced players of one role. -/
def rolePool (pool : List StatRow) (role : String) : List StatRow :=
  pool.filter (fun r => r.role == role)

/-- The distinct roles of the experienced pool, in first-appearance order
(pandas unique). -/
def poolRoles (pool : List StatRow) : List String :=
  uniqueFirst (pool.map (fun r => r.role))

/-- The credited entries of one role pool: each experienced player of the
role with the credit of its percentile rank against that pool. -/
def roleEntries (pool : List StatRow) (role : String) : List (String × ℚ) :=
  let role_pool := rolePool pool role
  let scores := role_pool.map (fun r => r.composite_score)
  if scores.isEmpty then []
  else role_pool.map (fun r =>
    (r.player_id, get_credit (percentileofscore scores r.composite_score)))

/-- role_median_credits: for every role of the pool, the median credit of
its experienced players. -/
def roleMedianCredits (pool : List StatRow) : List (String × ℚ) :=
  (poolRoles pool).filterMap (fun role =>
    if ((rolePool pool role).map (fun r => r.composite_score)).isEmpty then none
    else some (role, listMedian ((roleEntries pool role).map (fun e => e.2))))

/-- final_credits_df: the concatenation of the credited entries of every
role of the pool. -/
def finalCredits (pool : List StatRow) : List (String × ℚ) :=
  (poolRoles pool).flatMap (fun role => roleEntries pool role)

/-- Step 4 of get_credits_for_match, for one squad player: experienced
players take their entry of final_credits_df (0 if absent), newcomers take
the median credit of their role (7.5 if the role has no median); the result
is rounded to 2 decimals and clipped to [4, 11]. -/
def squadCredit (stats : List StatRow) (fin meds : List (String × ℚ))
    (roles : PlayerDataProcessor) (match_date : MDate) (pid : String) : ℚ :=
  let player_appearances :=
    match stats.find? (fun r => r.player_id == pid) with
    | some r => r.appearances
    | none => 0
  let player_role := get_player_role roles pid match_date
  let credit_val : ℚ :=
    if 10 ≤ player_appearances then
      match fin.find? (fun e => e.1 == pid) with
      | some e => e.2
      | none => 0
    else
      match meds.find? (fun e => e.1 == player_role) with
      | some e => e.2
      | none => 7.5
  clipQ 4.0 11.0 (roundTo2 credit_val)

/-- The filter of step 1 of get_credits_for_match: only rows strictly
before the match date. -/
def preMatchHistory (hist : List HistRecord) (match_date : MDate) : List HistRecord :=
  hist.filter (fun r => dateLt r.match_date match_date)

/-- Steps 2-4 of get_credits_for_match, given the already filtered
history. -/
def creditsGivenHistory (pre : List HistRecord) (roles : PlayerDataProcessor)
    (squad_player_ids : List String) (match_date : MDate) : List (String × ℚ) :=
  if pre.isEmpty then squad_player_ids.map (fun pid => (pid, 6.0))
  else
    let stats := computeStats pre roles match_date
    let pool := percentilePool stats
    let meds := roleMedianCredits pool
    let fin := finalCredits pool
    squad_player_ids.map (fun pid => (pid, squadCredit stats fin meds roles match_date pid))

/-- CreditsCalculator.get_credits_for_match: filter the history to rows
strictly before the match date; a flat 6.0 for everyone when nothing
remains, the banding pipeline otherwise. -/
def get_credits_for_match (cc : CreditsCalculator) (squad_player_ids : List String)
    (match_date : MDate) : List (String × ℚ) :=
  creditsGivenHistory (preMatchHistory cc.historical_df match_date) cc.roles_processor
    squad_player_ids match_date

/-- The credit assigned to one squad player by a get_credits_for_match
result. -/
def creditOf (res : List (String × ℚ)) (pid : String) : ℚ :=
  match res.find? (fun e => e.1 == pid) with
  | some e => e.2
  | none => 0

/-! ## TeamSelector (solver.py) -/

/-- One squad row of the players DataFrame handed to TeamSelector. -/
structure SPlayer where
  player_id : String
  predicted_fp : ℚ
  credits : ℚ
  role : String
  team : String
deriving DecidableEq

/-- The distinct team names of the squad, in first-appearance order
(pandas unique). -/
def squadTeams (squad : List SPlayer) : List String :=
  uniqueFirst (squad.map (fun p => p.team))

def fpSum (t : List SPlayer) : ℚ := (t.map (fun p => p.predicted_fp)).sum

def creditSum (t : List SPlayer) : ℚ := (t.map (fun p => p.credits)).sum

def roleCount (role : String) (t : List SPlayer) : Nat :=
  t.countP (fun p => p.role == role)

def teamCount (team : String) (t : List SPlayer) : Nat :=
  t.countP (fun p => p.team == team)

/-- The hard constraints of select_team for one candidate selection:
exactly 11 players, budget at most 100, the role windows, at most 7 per
team, and at least 1 per team when the squad spans more than one team. -/
def feasibleB (squad t : List SPlayer) : Bool :=
  t.length == 11 &&
  decide (creditSum t ≤ 100) &&
  decide (1 ≤ roleCount "WK" t) && decide (roleCount "WK" t ≤ 4) &&
  decide (3 ≤ roleCount "BAT" t) && decide (roleCount "BAT" t ≤ 6) &&
  decide (1 ≤ roleCount "AR" t) && decide (roleCount "AR" t ≤ 4) &&
  decide (3 ≤ roleCount "BOWL" t) && decide (roleCount "BOWL" t ≤ 6) &&
  (squadTeams squad).all (fun team =>
    decide (teamCount team t ≤ 7) &&
    (decide ((squadTeams squad).length ≤ 1) || decide (1 ≤ teamCount team t)))

/-- The objective handed to the LP solver: the source sums the three terms
total_points, neg_credits and num_ars into one objective expression
(lpSum of the list), so the solved program maximizes
`fpSum - creditSum + (number of AR players)`. -/
def objective (t : List SPlayer) : ℚ :=
  fpSum t + (- creditSum t) + (roleCount "AR" t : ℚ)

/-- The feasible region of the integer program: every 11-element subset of
the squad satisfying the hard constraints. -/
def feasibleSelections (squad : List SPlayer) : List (List SPlayer) :=
  (squad.sublistsLen 11).filter (feasibleB squad)

/-- Deterministic argmax over a candidate list (the CBC solver run by PuLP
is deterministic; which optimum it returns on exact ties is not specified,
the embedding keeps the first). -/
def pickBest (c : List SPlayer) (cs : List (List SPlayer)) : List SPlayer :=
  cs.foldl (fun best t => if objective best < objective t then t else best) c

/-- TeamSelector.select_team: an optimal solution of the integer program
when one exists.  When the program is infeasible no variable is set to 1
and the extraction step returns the empty selection. -/
def select_team (squad : List SPlayer) : List SPlayer :=
  match feasibleSelections squad with
  | [] => []
  | c :: cs => pickBest c cs

/-! ## Concrete instances used by witnesses and counterexamples -/

/-- Shorthand row constructor for solver squads. -/
def mkSP (pid : String) (fp cr : ℚ) (role team : String) : SPlayer :=
  ⟨pid, fp, cr, role, team⟩

/-- A 12-player squad on which the summed solver objective and the claimed
lexicographic objective pick different teams: bat1 brings 5 extra predicted
points but costs 12 extra credits, so dropping bat1 raises the summed
objective although it lowers the predicted-point total. -/
def squadC1 : List SPlayer :=
  [mkSP "wk1" 10 8 "WK" "X", mkSP "bat1" 15 20 "BAT" "X", mkSP "bat2" 10 8 "BAT" "X",
   mkSP "bat3" 10 8 "BAT" "X", mkSP "bat4" 10 8 "BAT" "X", mkSP "bat5" 10 8 "BAT" "X",
   mkSP "ar1" 10 8 "AR" "Y", mkSP "bowl1" 10 8 "BOWL" "Y", mkSP "bowl2" 10 8 "BOWL" "Y",
   mkSP "bowl3" 10 8 "BOWL" "Y", mkSP "bowl4" 10 8 "BOWL" "Y", mkSP "bowl5" 10 8 "BOWL" "Y"]

/-- The feasible team of squadC1 that keeps bat1 (drops bat3): the unique
maximal predicted-point total among feasible teams, 115. -/
def altTeamC1 : List SPlayer :=
  [mkSP "wk1" 10 8 "WK" "X", mkSP "bat1" 15 20 "BAT" "X", mkSP "bat2" 10 8 "BAT" "X",
   mkSP "bat4" 10 8 "BAT" "X", mkSP "bat5" 10 8 "BAT" "X",
   mkSP "ar1" 10 8 "AR" "Y", mkSP "bowl1" 10 8 "BOWL" "Y", mkSP "bowl2" 10 8 "BOWL" "Y",
   mkSP "bowl3" 10 8 "BOWL" "Y", mkSP "bowl4" 10 8 "BOWL" "Y", mkSP "bowl5" 10 8 "BOWL" "Y"]

/-- An 8-player squad: no 11-player selection exists. -/
def squadC3 : List SPlayer :=
  [mkSP "wk1" 10 8 "WK" "X", mkSP "bat1" 10 8 "BAT" "X", mkSP "bat2" 10 8 "BAT" "X",
   mkSP "bat3" 10 8 "BAT" "X", mkSP "ar1" 10 8 "AR" "Y", mkSP "bowl1" 10 8 "BOWL" "Y",
   mkSP "bowl2" 10 8 "BOWL" "Y", mkSP "bowl3" 10 8 "BOWL" "Y"]

/-- An 11-player squad whose only 11-element subset is feasible. -/
def squadC4 : List SPlayer :=
  [mkSP "wk1" 10 8 "WK" "X", mkSP "bat1" 10 8 "BAT" "X", mkSP "bat2" 10 8 "BAT" "X",
   mkSP "bat3" 10 8 "BAT" "X", mkSP "bat4" 10 8 "BAT" "X", mkSP "ar1" 10 8 "AR" "X",
   mkSP "ar2" 10 8 "AR" "Y", mkSP "bowl1" 10 8 "BOWL" "Y", mkSP "bowl2" 10 8 "BOWL" "Y",
   mkSP "bowl3" 10 8 "BOWL" "Y", mkSP "bowl4" 10 8 "BOWL" "Y"]

/-- A dot-ball delivery, Ann facing Bob. -/
def dotBall : Delivery := ⟨"Ann", "Bob", 0, 0, none, none, none⟩

/-- A match whose very first over has no deliveries. -/
def matchEmptyFirstOver : MatchData :=
  ⟨⟨[("X", ["Ann"]), ("Y", ["Bob"])], [("Ann", "A"), ("Bob", "B")]⟩,
   [⟨[⟨[]⟩]⟩]⟩

/-- A match with a one-dot-ball over followed by an over with no
deliveries. -/
def matchEmptySecondOver : MatchData :=
  ⟨⟨[("X", ["Ann"]), ("Y", ["Bob"])], [("Ann", "A"), ("Bob", "B")]⟩,
   [⟨[⟨[dotBall]⟩, ⟨[]⟩]⟩]⟩

/-- The same match without the empty second over. -/
def matchOneOver : MatchData :=
  ⟨⟨[("X", ["Ann"]), ("Y", ["Bob"])], [("Ann", "A"), ("Bob", "B")]⟩,
   [⟨[⟨[dotBall]⟩]⟩]⟩

/-- A two-over match in which every over has a delivery. -/
def matchTwoOvers : MatchData :=
  ⟨⟨[("X", ["Ann"]), ("Y", ["Bob"])], [("Ann", "A"), ("Bob", "B")]⟩,
   [⟨[⟨[dotBall]⟩, ⟨[dotBall]⟩]⟩]⟩

/-- The counters of the strike-rate counterexample: 8508 runs from 5005
balls give the strike rate 169.99001..., inside the claimed band
[150, 170) but above the 169.99 upper bound coded in SCORING_RULES. -/
def cexC5 : Counters := ⟨8508, 5005, 0, 0, 0, 0⟩

/-- A maiden over: six dot balls bowled by Bob. -/
def maidenOverC6 : Over := ⟨[dotBall, dotBall, dotBall, dotBall, dotBall, dotBall]⟩

/-- Ten identical appearances of one player, dated before February 2021. -/
def tenRows (pid : String) (fp : ℚ) : List HistRecord :=
  (List.range 10).map (fun i => ⟨pid, "m", ⟨2020, 3, (i : Int) + 1⟩, fp⟩)

/-- History with two experienced players of the same (default) role, one
with the strictly higher composite score. -/
def histTwo : List HistRecord := tenRows "a" 5 ++ tenRows "b" 3

/-- History with a single experienced player. -/
def histOne : List HistRecord := tenRows "c" 4

/-- A roles processor with empty tables: every lookup defaults to BAT. -/
def emptyRoles : PlayerDataProcessor := ⟨[], []⟩

/-- The valuation date used by the credit witnesses. -/
def dC : MDate := ⟨2021, 2, 1⟩

/-- A history row on the valuation date itself (not strictly before it). -/
def futureRow : HistRecord := ⟨"a", "m", ⟨2021, 2, 1⟩, 1000⟩

/-! # Theorems -/

/-! ## Solver lemmas -/

theorem pickBest_mem (cs : List (List SPlayer)) (c : List SPlayer) :
    pickBest c cs ∈ c :: cs := by
  induction cs generalizing c with
  | nil => simp [pickBest]
  | cons t ts ih =>
    simp only [pickBest, List.foldl_cons]
    have h := ih (if objective c < objective t then t else c)
    simp only [pickBest] at h
    rcases List.mem_cons.mp h with h1 | h1
    · rw [h1]
      split
      · exact List.mem_cons_of_mem _ (List.mem_cons_self _ _)
      · exact List.mem_cons_self _ _
    · exact List.mem_cons_of_mem _ (List.mem_cons_of_mem _ h1)

theorem pickBest_le (cs : List (List SPlayer)) (c : List SPlayer) :
    ∀ t ∈ c :: cs, objective t ≤ objective (pickBest c cs) := by
  induction cs generalizing c with
  | nil =>
    intro t ht
    simp only [List.mem_singleton] at ht
    subst ht
    simp [pickBest]
  | cons u us ih =>
    intro t ht
    simp only [pickBest, List.foldl_cons]
    have hbase : objective c ≤ objective (if objective c < objective u then u else c) := by
      split
      · exact le_of_lt (by assumption)
      · exact le_rfl
    have hu : objective u ≤ objective (if objective c < objective u then u else c) := by
      split
      · exact le_rfl
      · exact le_of_not_lt (by assumption)
    have hrec := ih (if objective c < objective u then u else c)
    simp only [pickBest] at hrec
    rcases List.mem_cons.mp ht with h1 | h1
    · subst h1
      exact le_trans hbase (hrec _ (List.mem_cons_self _ _))
    · rcases List.mem_cons.mp h1 with h2 | h2
      · subst h2
        exact le_trans hu (hrec _ (List.mem_cons_self _ _))
      · exact hrec _ (List.mem_cons_of_mem _ h2)

theorem select_team_mem (squad : List SPlayer) (h : feasibleSelections squad ≠ []) :
    select_team squad ∈ feasibleSelections squad := by
  cases hfs : feasibleSelections squad with
  | nil => exact absurd hfs h
  | cons c cs =>
    have heq : select_team squad = pickBest c cs := by
      unfold select_team
      rw [hfs]
    rw [heq]
    exact pickBest_mem cs c

theorem select_team_optimal (squad : List SPlayer) (h : feasibleSelections squad ≠ []) :
    ∀ t ∈ feasibleSelections squad, objective t ≤ objective (select_team squad) := by
  cases hfs : feasibleSelections squad with
  | nil => exact absurd hfs h
  | cons c cs =>
    have heq : select_team squad = pickBest c cs := by
      unfold select_team
      rw [hfs]
    rw [heq]
    exact pickBest_le cs c

/-- Claim C1, counterexample: on squadC1 the team returned by select_team
has predicted-point total 110, while the feasible team altTeamC1 totals
115 — select_team does not maximize total predicted_fp first. -/
theorem claim_C1_counterexample :
    altTeamC1 ∈ squadC1.sublistsLen 11 ∧ feasibleB squadC1 altTeamC1 = true ∧
    fpSum (select_team squadC1) < fpSum altTeamC1 := by
  refine ⟨by decide, by decide, by decide⟩

/-- Claim C1, amended: select_team returns a feasible team maximizing the
single summed objective (total predicted_fp) - (total credits) + (number
of AR players); the three terms are added with equal weight into one
objective rather than optimized in lexicographic stages, so the returned
team need not maximize total predicted_fp. -/
theorem claim_C1_amended (squad : List SPlayer) (h : feasibleSelections squad ≠ []) :
    feasibleB squad (select_team squad) = true ∧
    ∀ t ∈ squad.sublistsLen 11, feasibleB squad t = true →
      objective t ≤ objective (select_team squad) := by
  constructor
  · have h1 := select_team_mem squad h
    exact (List.mem_filter.mp h1).2
  · intro t ht hfeas
    exact select_team_optimal squad h t (List.mem_filter.mpr ⟨ht, hfeas⟩)

theorem claim_C1_amended_witness :
    feasibleB squadC1 (select_team squadC1) = true ∧
    ∀ t ∈ squadC1.sublistsLen 11, feasibleB squadC1 t = true →
      objective t ≤ objective (select_team squadC1) :=
  claim_C1_amended squadC1 (by decide)

/-- Claim C3, counterexample: on an 8-player squad no feasible selection
exists, and select_team returns the empty player list through its ordinary
return value — a partial (empty) team, not an explicit, typed
infeasibility result. -/
theorem claim_C3_counterexample :
    select_team squadC3 = [] ∧ (select_team squadC3).length ≠ 11 := by
  refine ⟨by decide, by decide⟩

/-- Claim C3, amended: when no assignment satisfies the hard constraints,
select_team returns the empty selection through the same plain return
channel as a success (no typed failure is raised); callers can tell the
two apart only because a successful selection always has 11 players. -/
theorem claim_C3_amended (squad : List SPlayer) (h : feasibleSelections squad = []) :
    select_team squad = [] := by
  unfold select_team
  rw [h]

theorem claim_C3_amended_witness : select_team squadC3 = [] :=
  claim_C3_amended squadC3 (by decide)

/-- Claim C4: whenever select_team succeeds (a feasible selection exists),
the returned selection has exactly 11 players, pairwise-distinct player
ids (for a duplicate-free squad), total credits at most 100, role counts
WK 1-4, BAT 3-6, AR 1-4, BOWL 3-6, at most 7 players from each team, and,
when the squad spans more than one team, at least 1 player from each
team. -/
theorem claim_C4 (squad : List SPlayer)
    (hnd : (squad.map (fun p => p.player_id)).Nodup)
    (h : feasibleSelections squad ≠ []) :
    (select_team squad).length = 11 ∧
    ((select_team squad).map (fun p => p.player_id)).Nodup ∧
    creditSum (select_team squad) ≤ 100 ∧
    (1 ≤ roleCount "WK" (select_team squad) ∧ roleCount "WK" (select_team squad) ≤ 4) ∧
    (3 ≤ roleCount "BAT" (select_team squad) ∧ roleCount "BAT" (select_team squad) ≤ 6) ∧
    (1 ≤ roleCount "AR" (select_team squad) ∧ roleCount "AR" (select_team squad) ≤ 4) ∧
    (3 ≤ roleCount "BOWL" (select_team squad) ∧ roleCount "BOWL" (select_team squad) ≤ 6) ∧
    (∀ team ∈ squadTeams squad, teamCount team (select_team squad) ≤ 7) ∧
    (1 < (squadTeams squad).length →
      ∀ team ∈ squadTeams squad, 1 ≤ teamCount team (select_team squad)) := by
  have hmem := select_team_mem squad h
  have hsub := (List.mem_sublistsLen.mp (List.mem_filter.mp hmem).1)
  have hfeas := (List.mem_filter.mp hmem).2
  simp only [feasibleB, Bool.and_eq_true, beq_iff_eq, decide_eq_true_eq,
    List.all_eq_true, Bool.or_eq_true] at hfeas
  obtain ⟨⟨⟨⟨⟨⟨⟨⟨⟨⟨h11, hcred⟩, hwk1⟩, hwk4⟩, hbat3⟩, hbat6⟩, har1⟩, har4⟩,
    hbowl3⟩, hbowl6⟩, hteam⟩ := hfeas
  refine ⟨h11, ?_, hcred, ⟨hwk1, hwk4⟩, ⟨hbat3, hbat6⟩, ⟨har1, har4⟩,
    ⟨hbowl3, hbowl6⟩, ?_, ?_⟩
  · exact (hsub.1.map (fun p => p.player_id)).nodup hnd
  · intro team hteam2
    exact (hteam team hteam2).1
  · intro hgt team hteam2
    rcases (hteam team hteam2).2 with h1 | h1
    · omega
    · exact h1

theorem claim_C4_witness :
    (select_team squadC4).length = 11 ∧
    ((select_team squadC4).map (fun p => p.player_id)).Nodup ∧
    creditSum (select_team squadC4) ≤ 100 ∧
    (1 ≤ roleCount "WK" (select_team squadC4) ∧ roleCount "WK" (select_team squadC4) ≤ 4) ∧
    (3 ≤ roleCount "BAT" (select_team squadC4) ∧ roleCount "BAT" (select_team squadC4) ≤ 6) ∧
    (1 ≤ roleCount "AR" (select_team squadC4) ∧ roleCount "AR" (select_team squadC4) ≤ 4) ∧
    (3 ≤ roleCount "BOWL" (select_team squadC4) ∧ roleCount "BOWL" (select_team squadC4) ≤ 6) ∧
    (∀ team ∈ squadTeams squadC4, teamCount team (select_team squadC4) ≤ 7) ∧
    (1 < (squadTeams squadC4).length →
      ∀ team ∈ squadTeams squadC4, 1 ≤ teamCount team (select_team squadC4)) :=
  claim_C4 squadC4 (by decide) (by decide)

/-! ## Role resolver -/

/-- Claim C8: get_player_role is total and follows the fallback chain: the
season-specific record for (player_id, year) when one exists, else the
global record for player_id when one exists, else the default BAT. -/
theorem claim_C8 (t : PlayerDataProcessor) (pid : String) (d : MDate) :
    (∃ r, t.seasonal_roles.find? (fun r => r.1 == pid && r.2.1 == d.year) = some r ∧
      get_player_role t pid d = r.2.2) ∨
    (t.seasonal_roles.find? (fun r => r.1 == pid && r.2.1 == d.year) = none ∧
      ∃ g, t.global_roles.find? (fun g => g.1 == pid) = some g ∧
        get_player_role t pid d = g.2) ∨
    (t.seasonal_roles.find? (fun r => r.1 == pid && r.2.1 == d.year) = none ∧
      t.global_roles.find? (fun g => g.1 == pid) = none ∧
      get_player_role t pid d = "BAT") := by
  cases hs : t.seasonal_roles.find? (fun r => r.1 == pid && r.2.1 == d.year) with
  | some r =>
    refine Or.inl ⟨r, rfl, ?_⟩
    unfold get_player_role
    rw [hs]
  | none =>
    cases hg : t.global_roles.find? (fun g => g.1 == pid) with
    | some g =>
      refine Or.inr (Or.inl ⟨rfl, g, rfl, ?_⟩)
      unfold get_player_role
      rw [hs, hg]
    | none =>
      refine Or.inr (Or.inr ⟨rfl, rfl, ?_⟩)
      unfold get_player_role
      rw [hs, hg]

/-! ## Credits: leakage invariant -/

/-- Claim C2: get_credits_for_match depends on the historical table only
through the rows strictly before the match date, so two histories whose
strictly-before-D rows agree give identical credits for every squad. -/
theorem claim_C2 (roles : PlayerDataProcessor) (h1 h2 : List HistRecord)
    (squad : List String) (d : MDate)
    (hagree : preMatchHistory h1 d = preMatchHistory h2 d) :
    get_credits_for_match ⟨h1, roles⟩ squad d =
      get_credits_for_match ⟨h2, roles⟩ squad d := by
  unfold get_credits_for_match
  rw [hagree]

theorem claim_C2_witness :
    preMatchHistory histTwo dC = preMatchHistory (histTwo ++ [futureRow]) dC ∧
    get_credits_for_match ⟨histTwo, emptyRoles⟩ ["a", "b"] dC =
      get_credits_for_match ⟨histTwo ++ [futureRow], emptyRoles⟩ ["a", "b"] dC :=
  ⟨by decide, claim_C2 emptyRoles histTwo (histTwo ++ [futureRow]) ["a", "b"] dC (by decide)⟩

/-! ## Scoring engine: strike-rate bands -/

theorem bandMatches_some_eq (lo hi : ℚ) (p : Int) (x : ℚ) :
    bandMatches ⟨lo, some hi, p⟩ x = decide (lo ≤ x ∧ x ≤ hi) := by
  by_cases h1 : lo ≤ x <;> by_cases h2 : x ≤ hi <;> simp [bandMatches, h1, h2]

theorem bandMatches_none_eq (lo : ℚ) (p : Int) (x : ℚ) :
    bandMatches ⟨lo, none, p⟩ x = decide (lo ≤ x) := by
  by_cases h1 : lo ≤ x <;> simp [bandMatches, h1]

theorem firstBandPoints_cons_pos {b : Band} {bs : List Band} {x : ℚ}
    (h : bandMatches b x = true) : firstBandPoints (b :: bs) x = b.pts := by
  unfold firstBandPoints
  rw [show List.find? (fun q => bandMatches q x) (b :: bs) = some b from
    List.find?_cons_of_pos _ h]

theorem firstBandPoints_cons_neg {b : Band} {bs : List Band} {x : ℚ}
    (h : bandMatches b x = false) : firstBandPoints (b :: bs) x = firstBandPoints bs x := by
  unfold firstBandPoints
  rw [show List.find? (fun q => bandMatches q x) (b :: bs) =
      List.find? (fun q => bandMatches q x) bs from
    List.find?_cons_of_neg _ (by simp [h])]

/-- Claim C5, counterexample: cexC5 faces 5005 balls for 8508 runs, a
strike rate inside the claimed half-open band [150, 170), yet the scoring
rules award no adjustment because the coded band tops out at 169.99. -/
theorem claim_C5_counterexample :
    10 ≤ cexC5.balls_faced ∧ 150 ≤ strikeRateOf cexC5 ∧ strikeRateOf cexC5 < 170 ∧
    strikeRateAdjustment cexC5 = 0 := by
  refine ⟨by decide, by decide, by decide, by decide⟩

/-- Claim C5, amended: with at least 10 balls faced, exactly one
strike-rate adjustment is applied, determined by the closed bands coded in
SCORING_RULES: at least 170 gives +6, [150, 169.99] gives +4,
[130, 149.99] gives +2, [50, 69.99] gives -2, [0, 49.99] gives -4, and any
other strike rate (in particular one inside a gap such as (169.99, 170))
gets no adjustment; with fewer than 10 balls faced there is never a
strike-rate adjustment. -/
theorem claim_C5_amended (c : Counters) :
    (c.balls_faced < 10 → strikeRateAdjustment c = 0) ∧
    (10 ≤ c.balls_faced → strikeRateAdjustment c =
      (if 170 ≤ strikeRateOf c then 6
       else if 150 ≤ strikeRateOf c ∧ strikeRateOf c ≤ 169.99 then 4
       else if 130 ≤ strikeRateOf c ∧ strikeRateOf c ≤ 149.99 then 2
       else if 50 ≤ strikeRateOf c ∧ strikeRateOf c ≤ 69.99 then -2
       else if 0 ≤ strikeRateOf c ∧ strikeRateOf c ≤ 49.99 then -4
       else 0)) := by
  constructor
  · intro h
    unfold strikeRateAdjustment
    rw [if_neg (by omega)]
  · intro h
    unfold strikeRateAdjustment
    rw [if_pos h]
    set x := strikeRateOf c with hx
    show firstBandPoints srBands x = _
    rw [show srBands = [⟨170, none, 6⟩, ⟨150, some 169.99, 4⟩, ⟨130, some 149.99, 2⟩,
      ⟨50, some 69.99, -2⟩, ⟨0, some 49.99, -4⟩] from rfl]
    split_ifs with h1 h2 h3 h4 h5
    · rw [firstBandPoints_cons_pos (by rw [bandMatches_none_eq]; simpa using h1)]
    · rw [firstBandPoints_cons_neg (by rw [bandMatches_none_eq]; simpa using h1),
        firstBandPoints_cons_pos (by rw [bandMatches_some_eq]; simpa using h2)]
    · rw [firstBandPoints_cons_neg (by rw [bandMatches_none_eq]; simpa using h1),
        firstBandPoints_cons_neg (by rw [bandMatches_some_eq]; simpa using h2),
        firstBandPoints_cons_pos (by rw [bandMatches_some_eq]; simpa using h3)]
    · rw [firstBandPoints_cons_neg (by rw [bandMatches_none_eq]; simpa using h1),
        firstBandPoints_cons_neg (by rw [bandMatches_some_eq]; simpa using h2),
        firstBandPoints_cons_neg (by rw [bandMatches_some_eq]; simpa using h3),
        firstBandPoints_cons_pos (by rw [bandMatches_some_eq]; simpa using h4)]
    · rw [firstBandPoints_cons_neg (by rw [bandMatches_none_eq]; simpa using h1),
        firstBandPoints_cons_neg (by rw [bandMatches_some_eq]; simpa using h2),
        firstBandPoints_cons_neg (by rw [bandMatches_some_eq]; simpa using h3),
        firstBandPoints_cons_neg (by rw [bandMatches_some_eq]; simpa using h4),
        firstBandPoints_cons_pos (by rw [bandMatches_some_eq]; simpa using h5)]
    · rw [firstBandPoints_cons_neg (by rw [bandMatches_none_eq]; simpa using h1),
        firstBandPoints_cons_neg (by rw [bandMatches_some_eq]; simpa using h2),
        firstBandPoints_cons_neg (by rw [bandMatches_some_eq]; simpa using h3),
        firstBandPoints_cons_neg (by rw [bandMatches_some_eq]; simpa using h4),
        firstBandPoints_cons_neg (by rw [bandMatches_some_eq]; simpa using h5)]
      simp [firstBandPoints, List.find?]

theorem claim_C5_amended_witness : strikeRateAdjustment ⟨16, 10, 0, 0, 0, 0⟩ = 4 := by
  have h := (claim_C5_amended ⟨16, 10, 0, 0, 0, 0⟩).2 (by decide)
  rw [h]
  decide

/-! ## Scoring engine: maiden overs and the delivery loop variable -/

theorem mem_of_getLast?_eq {α : Type} : ∀ {l : List α} {a : α}, l.getLast? = some a → a ∈ l := by
  intro l
  induction l with
  | nil => intro a h; cases h
  | cons d l ih =>
    intro a h
    cases l with
    | nil =>
      simp only [List.getLast?_singleton, Option.some.injEq] at h
      simp [h]
    | cons e l2 =>
      rw [List.getLast?_cons_cons] at h
      exact List.mem_cons_of_mem _ (ih h)

theorem foldl_deliveryStep_last (reg : List (String × String)) :
    ∀ (l : List Delivery) (ls : LoopState), l ≠ [] →
      (l.foldl (deliveryStep reg) ls).lastDelivery = l.getLast? := by
  intro l
  induction l with
  | nil => intro ls h; exact absurd rfl h
  | cons d l ih =>
    intro ls _
    cases l with
    | nil => simp [deliveryStep]
    | cons e l2 =>
      rw [List.foldl_cons, List.getLast?_cons_cons]
      exact ih (deliveryStep reg ls d) (by simp)

/-- Claim C6: for a non-empty over whose deliveries are all bowled by one
registered bowler, processing the over awards that bowler the +12 maiden
bonus exactly when the sum of the total runs of every delivery of the over
is zero, exactly once per over, on top of the per-delivery bowling points
accumulated by the delivery loop. -/
theorem claim_C6 (reg : List (String × String)) (ls : LoopState) (ov : Over)
    (b pid : String) (hne : ov.deliveries ≠ [])
    (hb : ∀ d ∈ ov.deliveries, d.bowler = b)
    (hreg : regGet reg b = some pid) :
    (processOver reg ls ov).map (fun ls1 => (ls1.score.points pid).bowling) =
      Except.ok (((ov.deliveries.foldl (deliveryStep reg) ls).score.points pid).bowling +
        (if (ov.deliveries.map (fun d => d.runs_total)).sum = 0 then 12 else 0)) := by
  obtain ⟨dl, hdl⟩ : ∃ dl, ov.deliveries.getLast? = some dl := by
    cases h : ov.deliveries.getLast? with
    | some dl => exact ⟨dl, rfl⟩
    | none => exact absurd (List.getLast?_eq_none_iff.mp h) hne
  have hlast := foldl_deliveryStep_last reg ov.deliveries ls hne
  have hbowler : dl.bowler = b := hb dl (mem_of_getLast?_eq hdl)
  simp only [processOver]
  rw [hlast, hdl]
  by_cases h0 : (ov.deliveries.map (fun d => d.runs_total)).sum = 0
  · rw [if_pos h0, if_pos h0]
    simp [Except.map, addBowlPts, updPts, hbowler, hreg]
  · rw [if_neg h0, if_neg h0]
    simp [Except.map]

theorem claim_C6_witness :
    (processOver [("Ann", "A"), ("Bob", "B")] initState maidenOverC6).map
        (fun ls1 => (ls1.score.points "B").bowling) =
      Except.ok (((maidenOverC6.deliveries.foldl
          (deliveryStep [("Ann", "A"), ("Bob", "B")]) initState).score.points "B").bowling +
        (if (maidenOverC6.deliveries.map (fun d => d.runs_total)).sum = 0 then 12 else 0)) :=
  claim_C6 [("Ann", "A"), ("Bob", "B")] initState maidenOverC6 "Bob" "B"
    (by decide) (by decide) (by decide)

/-! ## Scoring engine: totality and the empty-over failure modes -/

theorem processOver_ok_of_ne (reg : List (String × String)) (ls : LoopState)
    (ov : Over) (h : ov.deliveries ≠ []) :
    ∃ ls1, processOver reg ls ov = Except.ok ls1 := by
  obtain ⟨dl, hdl⟩ : ∃ dl, ov.deliveries.getLast? = some dl := by
    cases hc : ov.deliveries.getLast? with
    | some dl => exact ⟨dl, rfl⟩
    | none => exact absurd (List.getLast?_eq_none_iff.mp hc) h
  have hlast := foldl_deliveryStep_last reg ov.deliveries ls h
  simp only [processOver]
  rw [hlast, hdl]
  by_cases h0 : (ov.deliveries.map (fun d => d.runs_total)).sum = 0
  · rw [if_pos h0]
    dsimp only
    cases regGet reg dl.bowler <;> exact ⟨_, rfl⟩
  · rw [if_neg h0]
    exact ⟨_, rfl⟩

theorem foldlM_overs_ok (reg : List (String × String)) :
    ∀ (l : List Over) (ls : LoopState), (∀ ov ∈ l, ov.deliveries ≠ []) →
      ∃ ls1, l.foldlM (processOver reg) ls = Except.ok ls1 := by
  intro l
  induction l with
  | nil => intro ls _; exact ⟨ls, rfl⟩
  | cons ov l ih =>
    intro ls hl
    obtain ⟨ls1, h1⟩ := processOver_ok_of_ne reg ls ov (hl ov (List.mem_cons_self _ _))
    obtain ⟨ls2, h2⟩ := ih ls1 (fun o ho => hl o (List.mem_cons_of_mem _ ho))
    refine ⟨ls2, ?_⟩
    rw [List.foldlM_cons, h1]
    exact h2

theorem foldlM_innings_ok (reg : List (String × String)) :
    ∀ (l : List Innings) (ls : LoopState),
      (∀ inn ∈ l, ∀ ov ∈ inn.overs, ov.deliveries ≠ []) →
      ∃ ls1, l.foldlM (fun ls (inn : Innings) => inn.overs.foldlM (processOver reg) ls) ls =
        Except.ok ls1 := by
  intro l
  induction l with
  | nil => intro ls _; exact ⟨ls, rfl⟩
  | cons inn l ih =>
    intro ls hl
    obtain ⟨ls1, h1⟩ := foldlM_overs_ok reg inn.overs ls (hl inn (List.mem_cons_self _ _))
    obtain ⟨ls2, h2⟩ := ih ls1 (fun i hi => hl i (List.mem_cons_of_mem _ hi))
    refine ⟨ls2, ?_⟩
    rw [List.foldlM_cons, h1]
    exact h2

/-- Claim C9: calculate_points is total exactly on matches whose overs all
have at least one delivery.  A match whose very first over is empty fails
(the maiden-over check reads the never-bound loop variable, a NameError);
when a later over is empty, its zero run total triggers the maiden bonus
and the +12 goes to the bowler of the last delivery of the preceding over:
Bob scores 12 bowling points in the one-over match, but 24 once an empty
over follows his over. -/
theorem claim_C9 :
    isError (calculate_points matchEmptyFirstOver) = true ∧
    (∀ m : MatchData, (∀ inn ∈ m.innings, ∀ ov ∈ inn.overs, ov.deliveries ≠ []) →
      isError (calculate_points m) = false) ∧
    bowlingOf (calculate_points matchOneOver) "B" = some 12 ∧
    bowlingOf (calculate_points matchEmptySecondOver) "B" = some 24 := by
  refine ⟨by decide, ?_, by decide, by decide⟩
  intro m hm
  simp only [calculate_points]
  obtain ⟨ls1, h1⟩ := foldlM_innings_ok (_get_player_registry m) m.innings initState hm
  rw [h1]
  rfl

theorem claim_C9_witness : isError (calculate_points matchTwoOvers) = false :=
  claim_C9.2.1 matchTwoOvers (by decide)

/-! ## Exact composite-score comparison: correctness against the reals -/

theorem sqrtAddLt_iff (y c x : ℚ) (hx : 0 ≤ x) (hy : 0 ≤ y) :
    sqrtAddLt y c x = true ↔
      Real.sqrt ((y : ℚ) : ℝ) < ((c : ℚ) : ℝ) + Real.sqrt ((x : ℚ) : ℝ) := by
  have hx' : (0:ℝ) ≤ ((x : ℚ) : ℝ) := by exact_mod_cast hx
  have hy' : (0:ℝ) ≤ ((y : ℚ) : ℝ) := by exact_mod_cast hy
  set s := Real.sqrt ((x : ℚ) : ℝ) with hs_def
  set t := Real.sqrt ((y : ℚ) : ℝ) with ht_def
  have hs0 : 0 ≤ s := Real.sqrt_nonneg _
  have ht0 : 0 ≤ t := Real.sqrt_nonneg _
  have hs2 : s ^ 2 = ((x : ℚ) : ℝ) := Real.sq_sqrt hx'
  have ht2 : t ^ 2 = ((y : ℚ) : ℝ) := Real.sq_sqrt hy'
  unfold sqrtAddLt
  split_ifs with hc hc0
  · -- c < 0: the right side is positive only when x exceeds c squared
    have hc' : ((c : ℚ) : ℝ) < 0 := by exact_mod_cast hc
    simp only [Bool.and_eq_true, decide_eq_true_eq]
    constructor
    · rintro ⟨h1, h2, h3⟩
      have h1' : ((c : ℚ) : ℝ)^2 < ((x : ℚ) : ℝ) := by exact_mod_cast h1
      have h2' : (0:ℝ) < ((x : ℚ) : ℝ) + ((c : ℚ) : ℝ)^2 - ((y : ℚ) : ℝ) := by exact_mod_cast h2
      have h3' : (2*((c : ℚ) : ℝ))^2 * ((x : ℚ) : ℝ) <
          (((x : ℚ) : ℝ) + ((c : ℚ) : ℝ)^2 - ((y : ℚ) : ℝ))^2 := by exact_mod_cast h3
      have hsc : 0 < s + ((c : ℚ) : ℝ) := by nlinarith
      have hA : ((x : ℚ) : ℝ) + ((c : ℚ) : ℝ)^2 - ((y : ℚ) : ℝ) > 2*(-((c : ℚ) : ℝ))*s := by
        by_contra hle
        push_neg at hle
        have hB0 : (0:ℝ) ≤ 2*(-((c : ℚ) : ℝ))*s := by nlinarith
        nlinarith
      have ht2' : t^2 < (s + ((c : ℚ) : ℝ))^2 := by nlinarith
      nlinarith [sq_nonneg (t - (s + ((c : ℚ) : ℝ)))]
    · intro h
      have hsc : 0 < s + ((c : ℚ) : ℝ) := lt_of_le_of_lt ht0 (by linarith)
      have h1' : ((c : ℚ) : ℝ)^2 < ((x : ℚ) : ℝ) := by nlinarith
      have ht2' : t^2 < (s + ((c : ℚ) : ℝ))^2 := by nlinarith
      have hA : ((x : ℚ) : ℝ) + ((c : ℚ) : ℝ)^2 - ((y : ℚ) : ℝ) > 2*(-((c : ℚ) : ℝ))*s := by
        nlinarith
      have h2' : (0:ℝ) < ((x : ℚ) : ℝ) + ((c : ℚ) : ℝ)^2 - ((y : ℚ) : ℝ) := by nlinarith
      have hB0 : (0:ℝ) ≤ 2*(-((c : ℚ) : ℝ))*s := by nlinarith
      have hprod : (0:ℝ) <
          (((x : ℚ) : ℝ) + ((c : ℚ) : ℝ)^2 - ((y : ℚ) : ℝ) - 2*(-((c : ℚ) : ℝ))*s) *
          (((x : ℚ) : ℝ) + ((c : ℚ) : ℝ)^2 - ((y : ℚ) : ℝ) + 2*(-((c : ℚ) : ℝ))*s) :=
        mul_pos (by linarith) (by linarith)
      have h3' : (2*((c : ℚ) : ℝ))^2 * ((x : ℚ) : ℝ) <
          (((x : ℚ) : ℝ) + ((c : ℚ) : ℝ)^2 - ((y : ℚ) : ℝ))^2 := by nlinarith [hprod, hs2]
      refine ⟨by exact_mod_cast h1', by exact_mod_cast h2', by exact_mod_cast h3'⟩
  · -- c = 0: compare the radicands directly
    subst hc0
    simp only [decide_eq_true_eq, Rat.cast_zero, zero_add]
    constructor
    · intro h
      exact Real.sqrt_lt_sqrt hy' (by exact_mod_cast h)
    · intro h
      by_contra hle
      push_neg at hle
      exact absurd (Real.sqrt_le_sqrt (by exact_mod_cast hle)) (not_le.mpr h)
  · -- c > 0
    have hcpos : (0:ℚ) < c := lt_of_le_of_ne (not_lt.mp hc) (Ne.symm hc0)
    have hc' : (0:ℝ) < ((c : ℚ) : ℝ) := by exact_mod_cast hcpos
    simp only [Bool.or_eq_true, decide_eq_true_eq]
    constructor
    · rintro (h1 | h1)
      · have h1' : ((y : ℚ) : ℝ) - ((x : ℚ) : ℝ) - ((c : ℚ) : ℝ)^2 < 0 := by exact_mod_cast h1
        nlinarith [sq_nonneg (t - (((c : ℚ) : ℝ) + s)), mul_nonneg (le_of_lt hc') hs0]
      · have h1' : (((y : ℚ) : ℝ) - ((x : ℚ) : ℝ) - ((c : ℚ) : ℝ)^2)^2 <
            (2*((c : ℚ) : ℝ))^2 * ((x : ℚ) : ℝ) := by exact_mod_cast h1
        by_contra hge
        push_neg at hge
        have hA : ((y : ℚ) : ℝ) - ((x : ℚ) : ℝ) - ((c : ℚ) : ℝ)^2 ≥ 2*((c : ℚ) : ℝ)*s := by
          nlinarith
        have hB : (0:ℝ) ≤ 2*((c : ℚ) : ℝ)*s := mul_nonneg (by linarith) hs0
        nlinarith
    · intro h
      by_cases hA : y - x - c^2 < 0
      · exact Or.inl hA
      · push_neg at hA
        have hA' : (0:ℝ) ≤ ((y : ℚ) : ℝ) - ((x : ℚ) : ℝ) - ((c : ℚ) : ℝ)^2 := by exact_mod_cast hA
        have ht2' : t^2 < (((c : ℚ) : ℝ) + s)^2 := by nlinarith
        have hlt2 : ((y : ℚ) : ℝ) - ((x : ℚ) : ℝ) - ((c : ℚ) : ℝ)^2 < 2*((c : ℚ) : ℝ)*s := by
          nlinarith
        have hfin : (((y : ℚ) : ℝ) - ((x : ℚ) : ℝ) - ((c : ℚ) : ℝ)^2)^2 <
            (2*((c : ℚ) : ℝ))^2 * ((x : ℚ) : ℝ) := by
          nlinarith [mul_nonneg (le_of_lt hc') hs0]
        exact Or.inr (by exact_mod_cast hfin)

theorem sqrt_rat_scale (v : ℚ) :
    Real.sqrt ((((9:ℚ)/100) * v : ℚ) : ℝ) = (3/10) * Real.sqrt ((v : ℚ) : ℝ) := by
  push_cast
  rw [show ((9:ℝ)/100) = (3/10)^2 by norm_num]
  rw [Real.sqrt_mul (by positivity) _]
  rw [Real.sqrt_sq (by norm_num)]

theorem compLt_iff (a b : Comp) (ha : 0 ≤ a.var) (hb : 0 ≤ b.var) :
    compLt a b = true ↔ a.val < b.val := by
  unfold compLt
  rw [sqrtAddLt_iff _ _ _ (mul_nonneg (by norm_num) ha) (mul_nonneg (by norm_num) hb)]
  rw [sqrt_rat_scale, sqrt_rat_scale]
  unfold Comp.val
  push_cast
  constructor <;> intro h <;> linarith

theorem compLe_iff (a b : Comp) (ha : 0 ≤ a.var) (hb : 0 ≤ b.var) :
    compLe a b = true ↔ a.val ≤ b.val := by
  have h := compLt_iff b a hb ha
  constructor
  · intro hle
    by_contra hlt
    push_neg at hlt
    have := h.mpr hlt
    unfold compLe at hle
    rw [this] at hle
    simp at hle
  · intro hnl
    have hfalse : compLt b a = false := by
      cases hc : compLt b a
      · rfl
      · exact absurd (h.mp hc) (not_lt.mpr hnl)
    unfold compLe
    rw [hfalse]
    rfl

/-! ## Variance nonnegativity along the credits pipeline -/

theorem sampleVar_nonneg (l : List ℚ) : 0 ≤ sampleVar l := by
  unfold sampleVar
  split_ifs with h
  · exact le_refl 0
  · apply div_nonneg
    · apply List.sum_nonneg
      intro u hu
      obtain ⟨a, _, rfl⟩ := List.mem_map.mp hu
      positivity
    · push_neg at h
      have h2 : (2:ℚ) ≤ (l.length : ℚ) := by exact_mod_cast h
      linarith

theorem composite_var_nonneg (l : List ℚ) : 0 ≤ (_calculate_composite_score l).var := by
  unfold _calculate_composite_score
  split_ifs
  · exact le_refl 0
  · exact sampleVar_nonneg l

theorem computeStats_var_nonneg (pre : List HistRecord) (roles : PlayerDataProcessor)
    (d : MDate) (r : StatRow) (hr : r ∈ computeStats pre roles d) :
    0 ≤ r.composite_score.var := by
  unfold computeStats at hr
  obtain ⟨pid, _, rfl⟩ := List.mem_map.mp hr
  exact composite_var_nonneg _

/-! ## uniqueFirst, sorting, and key-uniqueness lemmas -/

theorem mem_uniqueFirstAux {α : Type} [DecidableEq α] :
    ∀ (l : List α) (seen : List α) (a : α),
      a ∈ uniqueFirstAux seen l ↔ a ∈ l ∧ a ∉ seen := by
  intro l
  induction l with
  | nil => intro seen a; simp [uniqueFirstAux]
  | cons b l ih =>
    intro seen a
    unfold uniqueFirstAux
    split_ifs with hb
    · rw [ih]
      simp only [List.mem_cons]
      constructor
      · rintro ⟨h1, h2⟩
        exact ⟨Or.inr h1, h2⟩
      · rintro ⟨h1 | h1, h2⟩
        · subst h1; exact absurd hb h2
        · exact ⟨h1, h2⟩
    · simp only [List.mem_cons, ih, List.mem_cons]
      constructor
      · rintro (rfl | ⟨h1, h2⟩)
        · exact ⟨Or.inl rfl, hb⟩
        · refine ⟨Or.inr h1, fun hs => h2 (Or.inr hs)⟩
      · rintro ⟨h1 | h1, h2⟩
        · exact Or.inl h1
        · by_cases hab : a = b
          · exact Or.inl hab
          · exact Or.inr ⟨h1, fun hs => (by tauto : a = b ∨ a ∈ seen → False) hs⟩

theorem nodup_uniqueFirstAux {α : Type} [DecidableEq α] :
    ∀ (l : List α) (seen : List α), (uniqueFirstAux seen l).Nodup := by
  intro l
  induction l with
  | nil => intro seen; simp [uniqueFirstAux]
  | cons b l ih =>
    intro seen
    unfold uniqueFirstAux
    split_ifs with hb
    · exact ih seen
    · rw [List.nodup_cons]
      refine ⟨fun hmem => ?_, ih (b :: seen)⟩
      exact ((mem_uniqueFirstAux l (b :: seen) b).mp hmem).2 (List.mem_cons_self _ _)

theorem mem_uniqueFirst {α : Type} [DecidableEq α] (l : List α) (a : α) :
    a ∈ uniqueFirst l ↔ a ∈ l := by
  unfold uniqueFirst
  rw [mem_uniqueFirstAux]
  simp

theorem nodup_uniqueFirst {α : Type} [DecidableEq α] (l : List α) :
    (uniqueFirst l).Nodup :=
  nodup_uniqueFirstAux l []

theorem insertSorted_perm {α : Type} (le : α → α → Bool) (a : α) :
    ∀ l : List α, (insertSorted le a l).Perm (a :: l) := by
  intro l
  induction l with
  | nil => simp [insertSorted]
  | cons b l ih =>
    unfold insertSorted
    split_ifs with h
    · exact List.Perm.refl _
    · exact List.Perm.trans (List.Perm.cons b ih) (List.Perm.swap a b l)

theorem insertionSort_perm {α : Type} (le : α → α → Bool) :
    ∀ l : List α, (insertionSort le l).Perm l := by
  intro l
  induction l with
  | nil => simp [insertionSort]
  | cons a l ih =>
    unfold insertionSort
    exact List.Perm.trans (insertSorted_perm le a _) (List.Perm.cons a ih)

theorem mem_insertionSort {α : Type} (le : α → α → Bool) (l : List α) (a : α) :
    a ∈ insertionSort le l ↔ a ∈ l :=
  (insertionSort_perm le l).mem_iff

theorem groupKeys_nodup (hist : List HistRecord) : (groupKeys hist).Nodup := by
  unfold groupKeys
  exact ((insertionSort_perm _ _).nodup_iff).mpr (nodup_uniqueFirst _)

theorem keys_inj_of_nodup {α β : Type} (key : α → β) :
    ∀ (l : List α), (l.map key).Nodup → ∀ a ∈ l, ∀ b ∈ l, key a = key b → a = b := by
  intro l
  induction l with
  | nil => intro _ a ha; cases ha
  | cons c l ih =>
    intro hnd a ha b hb heq
    rw [List.map_cons, List.nodup_cons] at hnd
    rcases List.mem_cons.mp ha with rfl | ha2 <;> rcases List.mem_cons.mp hb with rfl | hb2
    · rfl
    · exact absurd (by rw [heq]; exact List.mem_map_of_mem key hb2) hnd.1
    · exact absurd (by rw [← heq]; exact List.mem_map_of_mem key ha2) hnd.1
    · exact ih hnd.2 a ha2 b hb2 heq

theorem find?_key_eq {α : Type} (key : α → String) :
    ∀ (l : List α), (l.map key).Nodup → ∀ r ∈ l,
      l.find? (fun x => key x == key r) = some r := by
  intro l
  induction l with
  | nil => intro _ r hr; cases hr
  | cons c l ih =>
    intro hnd r hr
    rw [List.map_cons, List.nodup_cons] at hnd
    rcases List.mem_cons.mp hr with rfl | hr2
    · rw [List.find?_cons_of_pos _ (by simp)]
    · have hne : ¬ (key c == key r) = true := by
        simp only [beq_iff_eq]
        intro heq
        exact hnd.1 (by rw [heq]; exact List.mem_map_of_mem key hr2)
      rw [show (c :: l).find? (fun x => key x == key r) = l.find? (fun x => key x == key r)
        from List.find?_cons_of_neg _ hne]
      exact ih hnd.2 r hr2

theorem find?_map_pair (f : String → ℚ) (pid : String) :
    ∀ (squad : List String), pid ∈ squad →
      (squad.map (fun p => (p, f p))).find? (fun e => e.1 == pid) = some (pid, f pid) := by
  intro squad
  induction squad with
  | nil => intro h; cases h
  | cons a l ih =>
    intro h
    rw [List.map_cons]
    by_cases hap : a = pid
    · subst hap
      rw [List.find?_cons_of_pos _ (by simp)]
    · rw [List.find?_cons_of_neg _ (by simp [hap])]
      rcases List.mem_cons.mp h with rfl | h2
      · exact absurd rfl hap
      · exact ih h2

/-! ## Credit band evaluation and monotonicity -/

theorem cb_cons_pos (mc Mc mp Mp : ℚ) (bs : List CreditBand) (p : ℚ)
    (h1 : mp ≤ p) (h2 : p < Mp) :
    List.find? (fun b => decide (b.min_p ≤ p) && decide (p < b.max_p))
        ((⟨mc, Mc, mp, Mp⟩ : CreditBand) :: bs) = some ⟨mc, Mc, mp, Mp⟩ :=
  List.find?_cons_of_pos _ (by simp [h1, h2])

theorem cb_cons_neg (mc Mc mp Mp : ℚ) (bs : List CreditBand) (p : ℚ)
    (h : ¬(mp ≤ p ∧ p < Mp)) :
    List.find? (fun b => decide (b.min_p ≤ p) && decide (p < b.max_p))
        ((⟨mc, Mc, mp, Mp⟩ : CreditBand) :: bs) =
      List.find? (fun b => decide (b.min_p ≤ p) && decide (p < b.max_p)) bs :=
  List.find?_cons_of_neg _ (by simp only [Bool.and_eq_true, decide_eq_true_eq]; exact h)

theorem gc_top (p : ℚ) (h1 : 90 ≤ p) (h2 : p < 100) :
    get_credit p = 10.5 + (p - 90) / 10 * (1/2) := by
  unfold get_credit credit_bands
  rw [cb_cons_pos _ _ _ _ _ _ h1 h2]
  dsimp only
  rw [if_pos (by norm_num : (0:ℚ) < 100 - 90)]
  norm_num

theorem gc_next (p : ℚ) (h1 : 70 ≤ p) (h2 : p < 90) :
    get_credit p = 9 + (p - 70) / 20 * 1 := by
  unfold get_credit credit_bands
  rw [cb_cons_neg _ _ _ _ _ _ (by intro hh; linarith [hh.1]),
    cb_cons_pos _ _ _ _ _ _ h1 h2]
  dsimp only
  rw [if_pos (by norm_num : (0:ℚ) < 90 - 70)]
  norm_num

theorem gc_middle (p : ℚ) (h1 : 30 ≤ p) (h2 : p < 70) :
    get_credit p = 7 + (p - 30) / 40 * (3/2) := by
  unfold get_credit credit_bands
  rw [cb_cons_neg _ _ _ _ _ _ (by intro hh; linarith [hh.1]),
    cb_cons_neg _ _ _ _ _ _ (by intro hh; linarith [hh.1]),
    cb_cons_pos _ _ _ _ _ _ h1 h2]
  dsimp only
  rw [if_pos (by norm_num : (0:ℚ) < 70 - 30)]
  norm_num

theorem gc_bottom (p : ℚ) (h1 : 0 ≤ p) (h2 : p < 30) :
    get_credit p = 4 + (p - 0) / 30 * (5/2) := by
  unfold get_credit credit_bands
  rw [cb_cons_neg _ _ _ _ _ _ (by intro hh; linarith [hh.1]),
    cb_cons_neg _ _ _ _ _ _ (by intro hh; linarith [hh.1]),
    cb_cons_neg _ _ _ _ _ _ (by intro hh; linarith [hh.1]),
    cb_cons_pos _ _ _ _ _ _ h1 h2]
  dsimp only
  rw [if_pos (by norm_num : (0:ℚ) < 30 - 0)]
  norm_num

theorem gc_high (p : ℚ) (h1 : 100 ≤ p) : get_credit p = 11 := by
  unfold get_credit credit_bands
  rw [cb_cons_neg _ _ _ _ _ _ (by intro hh; linarith [hh.2]),
    cb_cons_neg _ _ _ _ _ _ (by intro hh; linarith [hh.2]),
    cb_cons_neg _ _ _ _ _ _ (by intro hh; linarith [hh.2]),
    cb_cons_neg _ _ _ _ _ _ (by intro hh; linarith [hh.2])]
  norm_num

theorem q_regions (r : ℚ) (hr : 0 ≤ r) :
    (0 ≤ r ∧ r < 30) ∨ (30 ≤ r ∧ r < 70) ∨ (70 ≤ r ∧ r < 90) ∨
      (90 ≤ r ∧ r < 100) ∨ 100 ≤ r := by
  rcases lt_or_le r 30 with h | h
  · exact Or.inl ⟨hr, h⟩
  rcases lt_or_le r 70 with h2 | h2
  · exact Or.inr (Or.inl ⟨h, h2⟩)
  rcases lt_or_le r 90 with h3 | h3
  · exact Or.inr (Or.inr (Or.inl ⟨h2, h3⟩))
  rcases lt_or_le r 100 with h4 | h4
  · exact Or.inr (Or.inr (Or.inr (Or.inl ⟨h3, h4⟩)))
  · exact Or.inr (Or.inr (Or.inr (Or.inr h4)))

theorem get_credit_mono (p q : ℚ) (hp : 0 ≤ p) (hpq : p ≤ q) :
    get_credit p ≤ get_credit q := by
  rcases q_regions p hp with ⟨h1, h2⟩ | ⟨h1, h2⟩ | ⟨h1, h2⟩ | ⟨h1, h2⟩ | h1 <;>
    rcases q_regions q (hp.trans hpq) with ⟨g1, g2⟩ | ⟨g1, g2⟩ | ⟨g1, g2⟩ | ⟨g1, g2⟩ | g1 <;>
    simp only [gc_top, gc_next, gc_middle, gc_bottom, gc_high, *] <;>
    linarith

/-! ## Banker rounding and clipping -/

theorem roundHalfEven_mono {y z : ℚ} (h : y ≤ z) : roundHalfEven y ≤ roundHalfEven z := by
  have hf : ⌊y⌋ ≤ ⌊z⌋ := Int.floor_mono h
  by_cases hy : y - (⌊y⌋ : ℚ) = 1 / 2 <;> by_cases hz : z - (⌊z⌋ : ℚ) = 1 / 2
  · rcases eq_or_lt_of_le hf with heq | hlt
    · have hyz : y = z := by
        have hq : ((⌊y⌋ : ℤ) : ℚ) = ((⌊z⌋ : ℤ) : ℚ) := by exact_mod_cast heq
        linarith
      rw [hyz]
    · unfold roundHalfEven
      rw [if_pos hy, if_pos hz]
      split_ifs <;> omega
  · unfold roundHalfEven
    rw [if_pos hy, if_neg hz, round_eq]
    have hle : ⌊y⌋ + 1 ≤ ⌊z + 1/2⌋ := by
      rw [Int.le_floor]
      push_cast
      linarith
    split_ifs <;> omega
  · unfold roundHalfEven
    rw [if_neg hy, if_pos hz, round_eq]
    have hyz : y < z := by
      rcases eq_or_lt_of_le h with rfl | h2
      · exact absurd hz hy
      · exact h2
    have hle : ⌊y + 1/2⌋ ≤ ⌊z⌋ := by
      rw [Int.floor_le_iff]
      linarith
    split_ifs <;> omega
  · unfold roundHalfEven
    rw [if_neg hy, if_neg hz, round_eq, round_eq]
    exact Int.floor_mono (by linarith)

theorem roundTo2_mono {p q : ℚ} (h : p ≤ q) : roundTo2 p ≤ roundTo2 q := by
  unfold roundTo2
  have h2 : roundHalfEven (p * 100) ≤ roundHalfEven (q * 100) :=
    roundHalfEven_mono (by linarith)
  have h3 : ((roundHalfEven (p * 100) : ℤ) : ℚ) ≤ ((roundHalfEven (q * 100) : ℤ) : ℚ) := by
    exact_mod_cast h2
  linarith

theorem clipQ_mono {lo hi p q : ℚ} (h : p ≤ q) : clipQ lo hi p ≤ clipQ lo hi q := by
  unfold clipQ
  exact max_le_max le_rfl (min_le_min h le_rfl)

/-! ## Percentile lemmas -/

theorem percentileofscore_nonneg (scores : List Comp) (x : Comp) :
    0 ≤ percentileofscore scores x := by
  unfold percentileofscore
  apply mul_nonneg
  · have i1 : (0:ℚ) ≤ (scores.countP (fun y => compLt y x) : ℚ) := by positivity
    have i2 : (0:ℚ) ≤ (scores.countP (fun y => compLe y x) : ℚ) := by positivity
    split_ifs <;> linarith
  · positivity

theorem percentileofscore_mono (scores : List Comp) (x1 x2 : Comp)
    (hvs : ∀ y ∈ scores, 0 ≤ y.var) (h1 : 0 ≤ x1.var) (h2 : 0 ≤ x2.var)
    (hlt : x2.val < x1.val) :
    percentileofscore scores x2 ≤ percentileofscore scores x1 := by
  unfold percentileofscore
  have hl : scores.countP (fun y => compLt y x2) ≤ scores.countP (fun y => compLe y x2) :=
    List.countP_mono_left (fun y hy hc => (compLe_iff y x2 (hvs y hy) h2).mpr
      (le_of_lt ((compLt_iff y x2 (hvs y hy) h2).mp hc)))
  have hr21 : scores.countP (fun y => compLe y x2) ≤ scores.countP (fun y => compLt y x1) :=
    List.countP_mono_left (fun y hy hc => (compLt_iff y x1 (hvs y hy) h1).mpr
      (lt_of_le_of_lt ((compLe_iff y x2 (hvs y hy) h2).mp hc) hlt))
  have hr : scores.countP (fun y => compLe y x2) ≤ scores.countP (fun y => compLe y x1) :=
    List.countP_mono_left (fun y hy hc => (compLe_iff y x1 (hvs y hy) h1).mpr
      (le_of_lt (lt_of_le_of_lt ((compLe_iff y x2 (hvs y hy) h2).mp hc) hlt)))
  apply mul_le_mul_of_nonneg_right _ (by positivity)
  have c1 : ((scores.countP (fun y => compLt y x2) : ℕ) : ℚ) ≤
      (scores.countP (fun y => compLe y x2) : ℕ) := by exact_mod_cast hl
  have c2 : ((scores.countP (fun y => compLe y x2) : ℕ) : ℚ) ≤
      (scores.countP (fun y => compLt y x1) : ℕ) := by exact_mod_cast hr21
  have c3 : ((scores.countP (fun y => compLe y x2) : ℕ) : ℚ) ≤
      (scores.countP (fun y => compLe y x1) : ℕ) := by exact_mod_cast hr
  split_ifs with ha hb
  · linarith
  · have c4 : ((scores.countP (fun y => compLt y x2) : ℕ) : ℚ) + 1 ≤
        (scores.countP (fun y => compLe y x2) : ℕ) := by exact_mod_cast ha
    linarith
  · linarith
  · linarith

/-! ## Structure of the stats table and the credited entries -/

theorem computeStats_keys (pre : List HistRecord) (roles : PlayerDataProcessor) (d : MDate) :
    (computeStats pre roles d).map (fun r => r.player_id) = groupKeys pre := by
  unfold computeStats
  rw [List.map_map]
  exact List.map_id' _

theorem computeStats_keys_nodup (pre : List HistRecord) (roles : PlayerDataProcessor)
    (d : MDate) : ((computeStats pre roles d).map (fun r => r.player_id)).Nodup := by
  rw [computeStats_keys]
  exact groupKeys_nodup pre

theorem pool_keys_nodup (pre : List HistRecord) (roles : PlayerDataProcessor) (d : MDate) :
    ((percentilePool (computeStats pre roles d)).map (fun r => r.player_id)).Nodup :=
  List.Nodup.sublist ((List.filter_sublist _).map _) (computeStats_keys_nodup pre roles d)

theorem rolePool_keys_nodup (pool : List StatRow)
    (hnd : (pool.map (fun r => r.player_id)).Nodup) (role : String) :
    ((rolePool pool role).map (fun r => r.player_id)).Nodup :=
  List.Nodup.sublist ((List.filter_sublist _).map _) hnd

theorem roleEntries_keys (pool : List StatRow) (role : String) :
    (roleEntries pool role).map (fun e => e.1) = (rolePool pool role).map (fun r => r.player_id) := by
  simp only [roleEntries]
  split_ifs with h
  · have h2 : rolePool pool role = [] := by
      have := List.isEmpty_iff.mp h
      exact List.map_eq_nil_iff.mp this
    rw [h2]
    rfl
  · rw [List.map_map]
    rfl

theorem finalCredits_keys_nodup (pool : List StatRow)
    (hnd : (pool.map (fun r => r.player_id)).Nodup) :
    ((finalCredits pool).map (fun e => e.1)).Nodup := by
  unfold finalCredits
  rw [List.map_flatMap, List.nodup_flatMap]
  constructor
  · intro role _
    rw [roleEntries_keys]
    exact rolePool_keys_nodup pool hnd role
  · have hnd2 : (poolRoles pool).Nodup := nodup_uniqueFirst _
    refine List.Pairwise.imp ?_ hnd2
    intro a b hab
    show List.Disjoint (List.map (fun e => e.1) (roleEntries pool a))
      (List.map (fun e => e.1) (roleEntries pool b))
    rw [roleEntries_keys, roleEntries_keys]
    intro x hxa hxb
    obtain ⟨ra, hra, rfl⟩ := List.mem_map.mp hxa
    obtain ⟨rb, hrb, heq⟩ := List.mem_map.mp hxb
    have hra2 := List.mem_filter.mp hra
    have hrb2 := List.mem_filter.mp hrb
    have hrarb : ra = rb :=
      keys_inj_of_nodup (fun r => r.player_id) pool hnd ra hra2.1 rb hrb2.1
        (by show ra.player_id = rb.player_id; exact heq.symm)
    apply hab
    rw [← beq_iff_eq.mp hra2.2, ← beq_iff_eq.mp hrb2.2, hrarb]

theorem mem_finalCredits (pool : List StatRow) (r : StatRow) (hr : r ∈ pool) :
    (r.player_id, get_credit (percentileofscore
        ((rolePool pool r.role).map (fun q => q.composite_score)) r.composite_score)) ∈
      finalCredits pool := by
  unfold finalCredits
  rw [List.mem_flatMap]
  refine ⟨r.role, ?_, ?_⟩
  · unfold poolRoles
    rw [mem_uniqueFirst]
    exact List.mem_map_of_mem _ hr
  · have hmem : r ∈ rolePool pool r.role := List.mem_filter.mpr ⟨hr, by simp⟩
    simp only [roleEntries]
    rw [if_neg ?_]
    · exact List.mem_map_of_mem _ hmem
    · intro hempty
      have h2 := List.map_eq_nil_iff.mp (List.isEmpty_iff.mp hempty)
      rw [h2] at hmem
      cases hmem

theorem finalCredits_find (pool : List StatRow)
    (hnd : (pool.map (fun r => r.player_id)).Nodup) (r : StatRow) (hr : r ∈ pool) :
    (finalCredits pool).find? (fun e => e.1 == r.player_id) =
      some (r.player_id, get_credit (percentileofscore
        ((rolePool pool r.role).map (fun q => q.composite_score)) r.composite_score)) :=
  find?_key_eq (fun (e : String × ℚ) => e.1) (finalCredits pool)
    (finalCredits_keys_nodup pool hnd) _ (mem_finalCredits pool r hr)

theorem stats_find (pre : List HistRecord) (roles : PlayerDataProcessor) (d : MDate)
    (r : StatRow) (hr : r ∈ computeStats pre roles d) :
    (computeStats pre roles d).find? (fun x => x.player_id == r.player_id) = some r :=
  find?_key_eq (fun x => x.player_id) _ (computeStats_keys_nodup pre roles d) r hr

theorem creditOf_map_pair (f : String → ℚ) (squad : List String) (pid : String)
    (h : pid ∈ squad) :
    creditOf (squad.map (fun p => (p, f p))) pid = f pid := by
  unfold creditOf
  rw [find?_map_pair f pid squad h]

theorem squadCredit_experienced (pre : List HistRecord) (roles : PlayerDataProcessor)
    (d : MDate) (meds : List (String × ℚ)) (r : StatRow)
    (hr : r ∈ percentilePool (computeStats pre roles d)) :
    squadCredit (computeStats pre roles d)
        (finalCredits (percentilePool (computeStats pre roles d))) meds roles d r.player_id =
      clipQ 4.0 11.0 (roundTo2 (get_credit (percentileofscore
        ((rolePool (percentilePool (computeStats pre roles d)) r.role).map
          (fun q => q.composite_score)) r.composite_score))) := by
  have hrs : r ∈ computeStats pre roles d := List.mem_of_mem_filter hr
  have happ : 10 ≤ r.appearances := by
    have h2 := (List.mem_filter.mp hr).2
    simpa using h2
  unfold squadCredit
  rw [stats_find pre roles d r hrs,
    finalCredits_find (percentilePool (computeStats pre roles d))
      (pool_keys_nodup pre roles d) r hr]
  dsimp only
  rw [if_pos happ]

/-- Claim C7: in one call of get_credits_for_match, for two squad players
of the same role of the experienced pool, a strictly higher composite
score (decided by compLt on the exact (mean, variance) representation)
never yields a strictly lower credit. -/
theorem claim_C7 (cc : CreditsCalculator) (squad : List String) (d : MDate) (r1 r2 : StatRow)
    (hne : (preMatchHistory cc.historical_df d).isEmpty = false)
    (h1 : r1 ∈ percentilePool
      (computeStats (preMatchHistory cc.historical_df d) cc.roles_processor d))
    (h2 : r2 ∈ percentilePool
      (computeStats (preMatchHistory cc.historical_df d) cc.roles_processor d))
    (hrole : r1.role = r2.role)
    (hlt : compLt r2.composite_score r1.composite_score = true)
    (hs1 : r1.player_id ∈ squad) (hs2 : r2.player_id ∈ squad) :
    creditOf (get_credits_for_match cc squad d) r2.player_id ≤
      creditOf (get_credits_for_match cc squad d) r1.player_id := by
  have hv1 : 0 ≤ r1.composite_score.var :=
    computeStats_var_nonneg _ _ _ _ (List.mem_of_mem_filter h1)
  have hv2 : 0 ≤ r2.composite_score.var :=
    computeStats_var_nonneg _ _ _ _ (List.mem_of_mem_filter h2)
  have hcall : get_credits_for_match cc squad d =
      squad.map (fun pid => (pid,
        squadCredit (computeStats (preMatchHistory cc.historical_df d) cc.roles_processor d)
          (finalCredits (percentilePool
            (computeStats (preMatchHistory cc.historical_df d) cc.roles_processor d)))
          (roleMedianCredits (percentilePool
            (computeStats (preMatchHistory cc.historical_df d) cc.roles_processor d)))
          cc.roles_processor d pid)) := by
    simp only [get_credits_for_match, creditsGivenHistory, hne, Bool.false_eq_true, if_false]
  rw [hcall, creditOf_map_pair _ _ _ hs1, creditOf_map_pair _ _ _ hs2,
    squadCredit_experienced _ _ _ _ r1 h1, squadCredit_experienced _ _ _ _ r2 h2, hrole]
  apply clipQ_mono
  apply roundTo2_mono
  apply get_credit_mono
  · exact percentileofscore_nonneg _ _
  · apply percentileofscore_mono
    · intro y hy
      obtain ⟨q, hq, rfl⟩ := List.mem_map.mp hy
      exact computeStats_var_nonneg _ _ _ _
        (List.mem_of_mem_filter (List.mem_of_mem_filter hq))
    · exact hv1
    · exact hv2
    · exact (compLt_iff r2.composite_score r1.composite_score hv2 hv1).mp hlt

theorem claim_C7_witness :
    creditOf (get_credits_for_match ⟨histTwo, emptyRoles⟩ ["a", "b"] dC) "b" ≤
      creditOf (get_credits_for_match ⟨histTwo, emptyRoles⟩ ["a", "b"] dC) "a" :=
  claim_C7 ⟨histTwo, emptyRoles⟩ ["a", "b"] dC ⟨"a", 10, ⟨5, 0⟩, "BAT"⟩ ⟨"b", 10, ⟨3, 0⟩, "BAT"⟩
    (by decide) (by decide) (by decide) (by decide) (by decide) (by decide) (by decide)

/-! ## The unique-maximum percentile-100 case -/

theorem claim_C10_count (rp : List StatRow) (m : StatRow) (hm : m ∈ rp)
    (hnodup : rp.Nodup)
    (hvm : 0 ≤ m.composite_score.var)
    (hvs : ∀ y ∈ rp, 0 ≤ y.composite_score.var)
    (hmax : ∀ y ∈ rp, y ≠ m → compLt y.composite_score m.composite_score = true) :
    percentileofscore (rp.map (fun q => q.composite_score)) m.composite_score = 100 := by
  obtain ⟨s, t, rfl⟩ := List.append_of_mem hm
  have hnd := List.nodup_append.mp hnodup
  have hs_ne : ∀ y ∈ s, y ≠ m := fun y hy heq => by
    exact hnd.2.2 hy (heq ▸ List.mem_cons_self _ _)
  have ht_ne : ∀ y ∈ t, y ≠ m := fun y hy heq => by
    have := List.nodup_cons.mp hnd.2.1
    exact this.1 (heq ▸ hy)
  have hirr : compLt m.composite_score m.composite_score = false := by
    cases hc : compLt m.composite_score m.composite_score
    · rfl
    · exact absurd ((compLt_iff _ _ hvm hvm).mp hc) (lt_irrefl _)
  have hrefl : compLe m.composite_score m.composite_score = true := by
    unfold compLe
    rw [hirr]
    rfl
  simp only [percentileofscore]
  rw [List.countP_map, List.countP_map]
  have hleftS : (s.countP ((fun y => compLt y m.composite_score) ∘
      (fun q => q.composite_score))) = s.length :=
    List.countP_eq_length.mpr (fun y hy =>
      hmax y (List.mem_append_left _ hy) (hs_ne y hy))
  have hleftT : (t.countP ((fun y => compLt y m.composite_score) ∘
      (fun q => q.composite_score))) = t.length :=
    List.countP_eq_length.mpr (fun y hy =>
      hmax y (List.mem_append_right _ (List.mem_cons_of_mem _ hy)) (ht_ne y hy))
  have hrightS : (s.countP ((fun y => compLe y m.composite_score) ∘
      (fun q => q.composite_score))) = s.length :=
    List.countP_eq_length.mpr (fun y hy => by
      have hc := hmax y (List.mem_append_left _ hy) (hs_ne y hy)
      show compLe y.composite_score m.composite_score = true
      exact (compLe_iff _ _ (hvs y (List.mem_append_left _ hy)) hvm).mpr
        (le_of_lt ((compLt_iff _ _ (hvs y (List.mem_append_left _ hy)) hvm).mp hc)))
  have hrightT : (t.countP ((fun y => compLe y m.composite_score) ∘
      (fun q => q.composite_score))) = t.length :=
    List.countP_eq_length.mpr (fun y hy => by
      have hmem : y ∈ s ++ m :: t := List.mem_append_right _ (List.mem_cons_of_mem _ hy)
      have hc := hmax y hmem (ht_ne y hy)
      show compLe y.composite_score m.composite_score = true
      exact (compLe_iff _ _ (hvs y hmem) hvm).mpr
        (le_of_lt ((compLt_iff _ _ (hvs y hmem) hvm).mp hc)))
  rw [List.countP_append, List.countP_append, List.countP_cons, List.countP_cons,
    hleftS, hleftT, hrightS, hrightT]
  have hpm : ((fun y => compLt y m.composite_score) ∘
      (fun (q : StatRow) => q.composite_score)) m = false := hirr
  have hpm2 : ((fun y => compLe y m.composite_score) ∘
      (fun (q : StatRow) => q.composite_score)) m = true := hrefl
  rw [hpm, hpm2]
  have hcond : s.length + (t.length + if false = true then 1 else 0) <
      s.length + (t.length + if (true : Bool) = true then 1 else 0) := by
    simp
  rw [if_pos hcond]
  simp only [List.length_map, List.length_append, List.length_cons]
  have hden : (0:ℚ) < ((s.length + (t.length + 1) : ℕ) : ℚ) := by positivity
  have hden2 : ((s.length + (t.length + 1) : ℕ) : ℚ) ≠ 0 := ne_of_gt hden
  push_cast at hden2 ⊢
  field_simp
  ring

/-- Shared shape of a get_credits_for_match call with non-empty filtered
history. -/
theorem get_credits_call (cc : CreditsCalculator) (squad : List String) (d : MDate)
    (hne : (preMatchHistory cc.historical_df d).isEmpty = false) :
    get_credits_for_match cc squad d =
      squad.map (fun pid => (pid,
        squadCredit (computeStats (preMatchHistory cc.historical_df d) cc.roles_processor d)
          (finalCredits (percentilePool
            (computeStats (preMatchHistory cc.historical_df d) cc.roles_processor d)))
          (roleMedianCredits (percentilePool
            (computeStats (preMatchHistory cc.historical_df d) cc.roles_processor d)))
          cc.roles_processor d pid)) := by
  simp only [get_credits_for_match, creditsGivenHistory, hne, Bool.false_eq_true, if_false]

/-- Claim C10: when one player alone attains the maximum composite score of
its role pool, that player gets percentile 100, which matches no band and
falls through to 11.0, and rounding and clipping leave 11.0 unchanged. -/
theorem claim_C10 (cc : CreditsCalculator) (squad : List String) (d : MDate) (m : StatRow)
    (hne : (preMatchHistory cc.historical_df d).isEmpty = false)
    (hm : m ∈ percentilePool
      (computeStats (preMatchHistory cc.historical_df d) cc.roles_processor d))
    (hmax : ∀ y ∈ rolePool (percentilePool
        (computeStats (preMatchHistory cc.historical_df d) cc.roles_processor d)) m.role,
      y ≠ m → compLt y.composite_score m.composite_score = true)
    (hsq : m.player_id ∈ squad) :
    creditOf (get_credits_for_match cc squad d) m.player_id = 11 := by
  have hvm : 0 ≤ m.composite_score.var :=
    computeStats_var_nonneg _ _ _ _ (List.mem_of_mem_filter hm)
  have hmrp : m ∈ rolePool (percentilePool
      (computeStats (preMatchHistory cc.historical_df d) cc.roles_processor d)) m.role :=
    List.mem_filter.mpr ⟨hm, by simp⟩
  have hrpnodup : (rolePool (percentilePool
      (computeStats (preMatchHistory cc.historical_df d) cc.roles_processor d)) m.role).Nodup :=
    List.Nodup.of_map _ (rolePool_keys_nodup _
      (pool_keys_nodup (preMatchHistory cc.historical_df d) cc.roles_processor d) m.role)
  have hpct := claim_C10_count _ m hmrp hrpnodup hvm
    (fun y hy => computeStats_var_nonneg _ _ _ _
      (List.mem_of_mem_filter (List.mem_of_mem_filter hy))) hmax
  rw [get_credits_call cc squad d hne, creditOf_map_pair _ _ _ hsq,
    squadCredit_experienced _ _ _ _ m hm, hpct, gc_high 100 le_rfl]
  decide

theorem claim_C10_witness :
    creditOf (get_credits_for_match ⟨histOne, emptyRoles⟩ ["c"] dC) "c" = 11 :=
  claim_C10 ⟨histOne, emptyRoles⟩ ["c"] dC ⟨"c", 10, ⟨4, 0⟩, "BAT"⟩
    (by decide) (by decide) (by decide) (by decide)

end Dream11
